import Mathlib

/-! Dots and Boxes backend: hubs, client pumps and replay.

A shallow embedding of `dots-and-boxes-backend-go/main.go`.

* A pointer (`*GameClient`, `*LobbyClient`) is a record whose `ptr` field is the
  address and whose other fields are the immutable fields of the pointee.
* The mutable `send` channel of every client lives in a heap `chans` that maps a
  client to the state of its channel.
* A Go map used as a set (`map[*GameClient]bool`) is a list without repetition;
  the order of the list stands for the order in which `range` visits the keys.
* A panic of the Go runtime (send on a closed channel, close of a closed
  channel) is an `Except.error`.
* `json.Marshal` is a parameter that may fail.
-/

namespace DotsAndBoxes

/-! ## Channels -/

/-- Serialized frame, the `[]byte` carried by a `send` channel. -/
abbrev Bytes := String

/-- An instant (`time.Time`); `0` is the zero value. -/
abbrev Time := Nat

/-- Runtime panics of channel operations. -/
inductive Fault where
  | sendOnClosed
  | closeOfClosed
deriving DecidableEq, Repr

/-- State of a buffered channel `chan []byte` made with capacity `cap`. -/
structure Chan where
  buf : List Bytes
  cap : Nat
  closed : Bool
deriving DecidableEq, Repr

/-- The buffer holds `cap` items: a send would have to wait. -/
def Chan.full (ch : Chan) : Bool := decide (ch.cap ≤ ch.buf.length)

/-- The channel made by `make(chan []byte, 256)` in `handleLobbyWS` and `handleGameWS`. -/
def Chan.make : Chan := { buf := [], cap := 256, closed := false }

/-- The statement `select { case ch <- data: default: }`: `some` of the new channel
when the item was enqueued, `none` when the default arm ran, a panic when the
channel is closed. -/
def Chan.trySend (ch : Chan) (data : Bytes) : Except Fault (Option Chan) :=
  if ch.closed then .error .sendOnClosed
  else if ch.buf.length < ch.cap then .ok (some { ch with buf := ch.buf ++ [data] })
  else .ok none

/-- The statement `close(ch)`. -/
def Chan.close (ch : Chan) : Except Fault Chan :=
  if ch.closed then .error .closeOfClosed else .ok { ch with closed := true }

/-- One receive `<-ch` by a writer (`for msg := range c.send`): takes the head of the buffer. -/
def Chan.recv (ch : Chan) : Chan := { ch with buf := ch.buf.tail }

/-- The fan-out loop shared by `GameHub.Run`, `LobbyHub.Run` and
`LobbyHub.broadcastPresence`:

    for c := range clients {
      select {
      case c.send <- data:
      default:
        delete(clients, c)
        close(c.send)
      }
    }

Returns the members that remain and the new heap of channels. -/
def fanOut {C : Type} [DecidableEq C] (data : Bytes) :
    List C → (C → Chan) → Except Fault (List C × (C → Chan))
  | [], chans => .ok ([], chans)
  | c :: rest, chans =>
    match (chans c).trySend data with
    | .error e => .error e
    | .ok (some ch) =>
      match fanOut data rest (Function.update chans c ch) with
      | .error e => .error e
      | .ok (kept, chans') => .ok (c :: kept, chans')
    | .ok none =>
      match (chans c).close with
      | .error e => .error e
      | .ok ch => fanOut data rest (Function.update chans c ch)

/-- Channel of a handle after a fan-out of `data` that visits it. -/
def afterFanOut (data : Bytes) (ch : Chan) : Chan :=
  if ch.full then { ch with closed := true } else { ch with buf := ch.buf ++ [data] }

/-! ## Game hub -/

/-- A `*GameClient`: `ptr` is the address, `userID` and `gameID` the fields set
in `handleGameWS`. The `send` channel is in the heap of the hub state. -/
structure GameClient where
  ptr : Nat
  userID : Int
  gameID : String
deriving DecidableEq, Repr

/-- The struct `GameMove`. -/
structure GameMove where
  Type_ : String
  GameID : String
  EdgeID : String
  Text : String
  UserID : Int
  PlayerSlot : String
  DisplayName : String
  SentAt : Time
deriving DecidableEq, Repr

/-- The struct `GameHub` (field `games`) together with the heap of `send` channels. -/
structure GameHub where
  games : String → Option (List GameClient)
  chans : GameClient → Chan

/-- The value of `NewGameHub()`; every client that will attach owns a fresh channel. -/
def NewGameHub : GameHub := { games := fun _ => none, chans := fun _ => Chan.make }

/-- What changes the hub state: the three operations `GameHub.Run` receives from
its channels, and `recv`, one receive from `client.send` by the `writePump` of
`client`, which runs beside the hub. -/
inductive GameOp where
  | register (client : GameClient)
  | unregister (client : GameClient)
  | broadcast (move : GameMove)
  | recv (client : GameClient)
deriving DecidableEq, Repr

/-- The statement `room[client] = true` on a set. -/
def setAdd {C : Type} [DecidableEq C] (room : List C) (client : C) : List C :=
  if client ∈ room then room else room ++ [client]

/-- The statement `delete(room, client)` on a set. -/
def setDelete {C : Type} [DecidableEq C] (room : List C) (client : C) : List C :=
  room.filter (fun x => decide (x ≠ client))

/-- One iteration of the `for { select { ... } }` loop of `GameHub.Run` (and one
receive of a `writePump` for `recv`). -/
def GameHub.step (marshal : GameMove → Option Bytes) (h : GameHub) : GameOp → Except Fault GameHub
  | .register client =>
    let room :=
      match h.games client.gameID with
      | none => []
      | some room => room
    .ok { h with games := Function.update h.games client.gameID (some (setAdd room client)) }
  | .unregister client =>
    match h.games client.gameID with
    | none => .ok h
    | some room =>
      if client ∈ room then
        let room' := setDelete room client
        match (h.chans client).close with
        | .error e => .error e
        | .ok ch =>
          if room'.length = 0 then
            .ok { games := Function.update h.games client.gameID none,
                  chans := Function.update h.chans client ch }
          else
            .ok { games := Function.update h.games client.gameID (some room'),
                  chans := Function.update h.chans client ch }
      else .ok h
  | .broadcast move =>
    match h.games move.GameID with
    | none => .ok h
    | some room =>
      match marshal move with
      | none => .ok h
      | some data =>
        match fanOut data room h.chans with
        | .error e => .error e
        | .ok (kept, chans) =>
          .ok { games := Function.update h.games move.GameID (some kept), chans := chans }
  | .recv client =>
    .ok { h with chans := Function.update h.chans client (h.chans client).recv }

/-- The loop of `GameHub.Run` over the operations it receives, in arrival order. -/
def GameHub.Run (marshal : GameMove → Option Bytes) : GameHub → List GameOp → Except Fault GameHub
  | h, [] => .ok h
  | h, op :: ops =>
    match h.step marshal op with
    | .error e => .error e
    | .ok h' => GameHub.Run marshal h' ops

/-- The members of room `k`: the handles a broadcast to `k` ranges over. -/
def GameHub.members (h : GameHub) (k : String) : List GameClient :=
  match h.games k with
  | none => []
  | some room => room

/-! ## Lobby hub -/

/-- The struct `User`. -/
structure User where
  ID : Int
  Username : String
  DisplayName : String
  CreatedAt : Time
deriving DecidableEq, Repr

/-- A `*LobbyClient`: `ptr` is the address, `user` the `*User` field (`none` is nil).
The `send` channel is in the heap of the hub state. -/
structure LobbyClient where
  ptr : Nat
  user : Option User
deriving DecidableEq, Repr

/-- The struct `LobbyUser`. -/
structure LobbyUser where
  UserID : Int
  DisplayName : String
deriving DecidableEq, Repr

/-- The struct `LobbyPresence`. -/
structure LobbyPresence where
  Type_ : String
  Users : List LobbyUser
deriving DecidableEq, Repr

/-- The struct `LobbyHub` (field `clients`) together with the heap of `send` channels. -/
structure LobbyHub where
  clients : List LobbyClient
  chans : LobbyClient → Chan

/-- The value of `NewLobbyHub()`; every client that will attach owns a fresh channel. -/
def NewLobbyHub : LobbyHub := { clients := [], chans := fun _ => Chan.make }

/-- The loop `for c := range h.clients` of `currentUsers`, with the map `seen`
and the slice `users` as accumulators. -/
def currentUsersLoop : List LobbyClient → List Int → List LobbyUser → List LobbyUser
  | [], _, users => users
  | c :: rest, seen, users =>
    match c.user with
    | none => currentUsersLoop rest seen users
    | some u =>
      if u.ID ∈ seen then currentUsersLoop rest seen users
      else
        let displayName := if u.DisplayName = "" then u.Username else u.DisplayName
        currentUsersLoop rest (u.ID :: seen)
          (users ++ [{ UserID := u.ID, DisplayName := displayName }])

/-- The method `LobbyHub.currentUsers`. -/
def LobbyHub.currentUsers (h : LobbyHub) : List LobbyUser :=
  currentUsersLoop h.clients [] []

/-- The method `LobbyHub.broadcastPresence`. -/
def LobbyHub.broadcastPresence (marshal : LobbyPresence → Option Bytes) (h : LobbyHub) :
    Except Fault LobbyHub :=
  let users := h.currentUsers
  let p : LobbyPresence := { Type_ := "presence", Users := users }
  match marshal p with
  | none => .ok h
  | some data =>
    match fanOut data h.clients h.chans with
    | .error e => .error e
    | .ok (kept, chans) => .ok { clients := kept, chans := chans }

/-- What changes the hub state: the three operations `LobbyHub.Run` receives from
its channels, and `recv`, one receive from `client.send` by the `writePump` of
`client`, which runs beside the hub. -/
inductive LobbyOp where
  | register (client : LobbyClient)
  | unregister (client : LobbyClient)
  | broadcast (msg : Bytes)
  | recv (client : LobbyClient)
deriving DecidableEq, Repr

/-- One iteration of the `for { select { ... } }` loop of `LobbyHub.Run` (and one
receive of a `writePump` for `recv`). -/
def LobbyHub.step (marshal : LobbyPresence → Option Bytes) (h : LobbyHub) :
    LobbyOp → Except Fault LobbyHub
  | .register client =>
    LobbyHub.broadcastPresence marshal { h with clients := setAdd h.clients client }
  | .unregister client =>
    if client ∈ h.clients then
      match (h.chans client).close with
      | .error e => .error e
      | .ok ch =>
        LobbyHub.broadcastPresence marshal
          { clients := setDelete h.clients client, chans := Function.update h.chans client ch }
    else .ok h
  | .broadcast msg =>
    match fanOut msg h.clients h.chans with
    | .error e => .error e
    | .ok (kept, chans) => .ok { clients := kept, chans := chans }
  | .recv client =>
    .ok { h with chans := Function.update h.chans client (h.chans client).recv }

/-- The loop of `LobbyHub.Run` over the operations it receives, in arrival order. -/
def LobbyHub.Run (marshal : LobbyPresence → Option Bytes) :
    LobbyHub → List LobbyOp → Except Fault LobbyHub
  | h, [] => .ok h
  | h, op :: ops =>
    match h.step marshal op with
    | .error e => .error e
    | .ok h' => LobbyHub.Run marshal h' ops

/-- The handles registered by a sequence of operations, in order. -/
def lobbyRegistered : List LobbyOp → List LobbyClient
  | [] => []
  | .register c :: ops => c :: lobbyRegistered ops
  | _ :: ops => lobbyRegistered ops

/-- The handles registered by a sequence of operations, in order. -/
def gameRegistered : List GameOp → List GameClient
  | [] => []
  | .register c :: ops => c :: gameRegistered ops
  | _ :: ops => gameRegistered ops

/-! ## Persisted log -/

/-- A row of table `moves`, with the columns that `saveMove` inserts. -/
structure MoveRow where
  game_id : String
  user_id : Int
  edge_id : String
  player_slot : String
deriving DecidableEq, Repr

/-- A row of table `chat_messages`, with the columns that `saveGameChat` inserts
and `created_at`, which the database assigns. -/
structure ChatRow where
  game_id : String
  user_id : Int
  display_name : String
  message : String
  room_type : String
  created_at : Time
deriving DecidableEq, Repr

/-- Modelled from the spec: the SQL schema of tables `moves` and `chat_messages`
is not in the source. The Persisted Log is append-only; each table is the list
of its rows in insertion order, which is the order of the serial column `id`. -/
structure Database where
  moves : List MoveRow
  chat_messages : List ChatRow
deriving DecidableEq, Repr

/-- The struct `StoredMove`. -/
structure StoredMove where
  EdgeID : String
  PlayerSlot : String
deriving DecidableEq, Repr

/-- The function `saveMove`. `db` is the `*sql.DB` (`none` is nil), `execErr` says
whether `db.Exec` fails. Returns the database and whether an error is returned. -/
def saveMove (db : Option Database) (execErr : Bool) (gameID : String) (userID : Int)
    (edgeID slot : String) : Option Database × Bool :=
  match db with
  | none => (none, false)
  | some d =>
    if execErr then (some d, true)
    else
      (some { d with moves := d.moves ++
          [{ game_id := gameID, user_id := userID, edge_id := edgeID, player_slot := slot }] },
        false)

/-- The function `loadMoves`; `none` is a returned error (`queryErr` says whether
the query or the scan of its rows fails). -/
def loadMoves (db : Option Database) (queryErr : Bool) (gameID : String) :
    Option (List StoredMove) :=
  match db with
  | none => some []
  | some d =>
    if queryErr then none
    else
      some ((d.moves.filter (fun r => decide (r.game_id = gameID))).map
        (fun r => { EdgeID := r.edge_id, PlayerSlot := r.player_slot }))

/-- The function `saveGameChat`. `createdAt` is the value the database gives to
column `created_at` of the new row. -/
def saveGameChat (db : Option Database) (execErr : Bool) (createdAt : Time) (gameID : String)
    (userID : Int) (displayName text : String) : Option Database × Bool :=
  match db with
  | none => (none, false)
  | some d =>
    if execErr then (some d, true)
    else
      (some { d with chat_messages := d.chat_messages ++
          [{ game_id := gameID, user_id := userID, display_name := displayName,
             message := text, room_type := "game", created_at := createdAt }] },
        false)

/-- The function `loadGameChat`; `none` is a returned error. The clause
`ORDER BY created_at ASC, id ASC` is a stable sort of the rows by `created_at`. -/
def loadGameChat (db : Option Database) (queryErr : Bool) (gameID : String) :
    Option (List GameMove) :=
  match db with
  | none => some []
  | some d =>
    if queryErr then none
    else
      some (((d.chat_messages.filter
          (fun r => decide (r.game_id = gameID) && decide (r.room_type = "game"))).insertionSort
          (fun a b => a.created_at ≤ b.created_at)).map
        (fun r => { Type_ := "chat", GameID := gameID, UserID := r.user_id, Text := r.message,
                    SentAt := r.created_at, EdgeID := "", PlayerSlot := "", DisplayName := "" }))

/-- The keys of the JSON object that `json.Marshal` writes for a `GameMove`, from
the struct tags: `omitempty` drops an empty string and a zero integer, and has
no effect on the struct `time.Time`. -/
def GameMove.jsonKeys (m : GameMove) : List String :=
  ["type", "gameId"]
    ++ (if m.EdgeID = "" then [] else ["edgeId"])
    ++ (if m.Text = "" then [] else ["text"])
    ++ (if m.UserID = 0 then [] else ["userId"])
    ++ (if m.PlayerSlot = "" then [] else ["playerSlot"])
    ++ (if m.DisplayName = "" then [] else ["displayName"])
    ++ ["sentAt"]

/-! ## Game client: inbound duty -/

/-- The predicate `unicode.IsSpace`. -/
def isSpace (c : Char) : Bool :=
  let n := c.toNat
  n = 0x09 || n = 0x0A || n = 0x0B || n = 0x0C || n = 0x0D || n = 0x20 || n = 0x85 || n = 0xA0
    || n = 0x1680 || (0x2000 ≤ n && n ≤ 0x200A) || n = 0x2028 || n = 0x2029 || n = 0x202F
    || n = 0x205F || n = 0x3000

/-- The function `strings.TrimSpace`. -/
def TrimSpace (s : String) : String :=
  String.mk ((s.toList.dropWhile isSpace).reverse.dropWhile isSpace).reverse

/-- The outcome of `conn.ReadMessage()` followed by `json.Unmarshal`. -/
inductive Inbound where
  | readError
  | badJSON
  | frame (incoming : GameMove)
deriving DecidableEq, Repr

/-- What the environment supplies to one iteration of the read loop. -/
structure PumpInput where
  read : Inbound
  now : Time
  execErr : Bool
  createdAt : Time
deriving DecidableEq, Repr

/-- The effects of `GameClient.readPump` on its collaborators, in program order.
Log lines are not effects. -/
inductive Effect where
  | saveMove (gameID : String) (userID : Int) (edgeID slot : String)
  | saveGameChat (gameID : String) (userID : Int) (displayName text : String)
  | broadcast (move : GameMove)
  | unregister (client : GameClient)
  | connClose
deriving DecidableEq, Repr

/-- The `switch incoming.Type` of `GameClient.readPump` for one decoded frame. -/
def GameClient.dispatch (c : GameClient) (db : Option Database) (inp : PumpInput)
    (incoming : GameMove) : Option Database × List Effect :=
  if incoming.Type_ = "move" then
    if incoming.EdgeID = "" then (db, [])
    else
      let slot := incoming.PlayerSlot
      if slot ≠ "p1" ∧ slot ≠ "p2" then (db, [])
      else
        let r := saveMove db inp.execErr c.gameID c.userID incoming.EdgeID slot
        let move : GameMove :=
          { Type_ := "move", GameID := c.gameID, EdgeID := incoming.EdgeID, PlayerSlot := slot,
            Text := "", UserID := 0, DisplayName := "", SentAt := 0 }
        (r.1, [.saveMove c.gameID c.userID incoming.EdgeID slot, .broadcast move])
  else if incoming.Type_ = "chat" then
    let txt := TrimSpace incoming.Text
    if txt = "" then (db, [])
    else
      let displayName := if incoming.DisplayName = "" then "Player" else incoming.DisplayName
      let r := saveGameChat db inp.execErr inp.createdAt c.gameID c.userID displayName txt
      let out : GameMove :=
        { Type_ := "chat", GameID := c.gameID, Text := txt, UserID := c.userID,
          DisplayName := displayName, SentAt := inp.now, EdgeID := "", PlayerSlot := "" }
      (r.1, [.saveGameChat c.gameID c.userID displayName txt, .broadcast out])
  else if incoming.Type_ = "endGame" then
    let txt := if TrimSpace incoming.Text = "" then "Game ended by a player"
      else TrimSpace incoming.Text
    let out : GameMove :=
      { Type_ := "endGame", GameID := c.gameID, Text := txt, EdgeID := "", UserID := 0,
        PlayerSlot := "", DisplayName := "", SentAt := 0 }
    (db, [.broadcast out])
  else (db, [])

/-- The method `GameClient.readPump` over the reads the connection yields. A read
error ends the loop and runs the deferred unregister and close; when the list
is used up the loop waits for the next frame. -/
def GameClient.readPump (c : GameClient) :
    Option Database → List PumpInput → Option Database × List Effect
  | db, [] => (db, [])
  | db, inp :: rest =>
    match inp.read with
    | .readError => (db, [.unregister c, .connClose])
    | .badJSON => GameClient.readPump c db rest
    | .frame incoming =>
      let r := c.dispatch db inp incoming
      let r' := GameClient.readPump c r.1 rest
      (r'.1, r.2 ++ r'.2)

/-! ## Join and replay -/

/-- The effects of `handleGameWS` after the upgrade: `write` is one
`conn.WriteMessage` and whether it failed. -/
inductive JoinEffect where
  | write (data : Bytes) (err : Bool)
  | register (client : GameClient)
  | goWritePump (client : GameClient)
  | goReadPump (client : GameClient)
deriving DecidableEq, Repr

/-- What the environment supplies to one run of `handleGameWS`: whether the two
queries fail, whether the write number `n` on the connection fails, and the
address of the new client. -/
structure JoinEnv where
  movesQueryErr : Bool
  chatQueryErr : Bool
  writeErr : Nat → Bool
  ptr : Nat

/-- The two replay loops of `handleGameWS`: marshal each frame (skip it on error)
and write it (leave the loop on error). `n` counts the writes made so far. -/
def replayLoop (marshal : GameMove → Option Bytes) (writeErr : Nat → Bool) :
    List GameMove → Nat → List JoinEffect × Nat
  | [], n => ([], n)
  | f :: rest, n =>
    match marshal f with
    | none => replayLoop marshal writeErr rest n
    | some data =>
      if writeErr n then ([.write data true], n + 1)
      else
        let r := replayLoop marshal writeErr rest (n + 1)
        (.write data false :: r.1, r.2)

/-- The frame `replay` that `handleGameWS` builds for a stored move. -/
def replayFrame (gameID : String) (m : StoredMove) : GameMove :=
  { Type_ := "move", GameID := gameID, EdgeID := m.EdgeID, PlayerSlot := m.PlayerSlot,
    Text := "", UserID := 0, DisplayName := "", SentAt := 0 }

/-- The method `Server.handleGameWS` from the replay of the moves on, for the
`userID` of the token and the `gameId` of the query, once the upgrade succeeded. -/
def handleGameWS (marshal : GameMove → Option Bytes) (db : Option Database) (env : JoinEnv)
    (userID : Int) (gameID : String) : List JoinEffect :=
  let r1 :=
    match loadMoves db env.movesQueryErr gameID with
    | none => ([], 0)
    | some moves => replayLoop marshal env.writeErr (moves.map (replayFrame gameID)) 0
  let r2 :=
    match loadGameChat db env.chatQueryErr gameID with
    | none => ([], r1.2)
    | some chats => replayLoop marshal env.writeErr chats r1.2
  let client : GameClient := { ptr := env.ptr, userID := userID, gameID := gameID }
  r1.1 ++ r2.1 ++ [.register client, .goWritePump client, .goReadPump client]


/-! ## Session registry -/

/-- The struct `GameRegistry`: the map `games` from a session id to its players.
The mutex makes each method one atomic step. -/
structure GameRegistry where
  games : String → Option (List Int)

/-- The value of `NewGameRegistry()`. -/
def NewGameRegistry : GameRegistry := { games := fun _ => none }

/-- The method `GameRegistry.Register`. -/
def GameRegistry.Register (gr : GameRegistry) (gameID : String) (p1 p2 : Int) : GameRegistry :=
  { games := Function.update gr.games gameID (some [p1, p2]) }

/-- The loop `for _, id := range players` of `IsPlayerInGame`. -/
def playersLoop : List Int → Int → Bool
  | [], _ => false
  | id :: rest, userID => if id = userID then true else playersLoop rest userID

/-- The method `GameRegistry.IsPlayerInGame`. -/
def GameRegistry.IsPlayerInGame (gr : GameRegistry) (gameID : String) (userID : Int) : Bool :=
  match gr.games gameID with
  | none => false
  | some players => playersLoop players userID

/-- The registry after the calls `Register(g, p1, p2)` of `calls`, in order. -/
def registerAll : GameRegistry → List (String × Int × Int) → GameRegistry
  | gr, [] => gr
  | gr, (g, p1, p2) :: rest => registerAll (gr.Register g p1 p2) rest

/-! ## Lobby client: inbound duty -/

/-- The struct `LobbyInbound`. -/
structure LobbyInbound where
  Type_ : String
  Text : String
  TargetUserID : Int
  OpponentUserID : Int
deriving DecidableEq, Repr

/-- The struct `LobbyChallengeOffer`. -/
structure LobbyChallengeOffer where
  Type_ : String
  FromUserID : Int
  FromName : String
  TargetUserID : Int
deriving DecidableEq, Repr

/-- The struct `LobbyStartGame`. -/
structure LobbyStartGame where
  Type_ : String
  GameID : String
  PlayerIDs : List Int
deriving DecidableEq, Repr

/-- The struct `LobbyMessage`. -/
structure LobbyMessage where
  Type_ : String
  UserID : Int
  DisplayName : String
  Text : String
  SentAt : Time
deriving DecidableEq, Repr

/-- The three uses of `json.Marshal` in `LobbyClient.readPump`; `none` is an error. -/
structure LobbyCodec where
  marshalOffer : LobbyChallengeOffer → Option Bytes
  marshalStart : LobbyStartGame → Option Bytes
  marshalChat : LobbyMessage → Option Bytes

/-- The outcome of `conn.ReadMessage()` followed by `json.Unmarshal` in the lobby. -/
inductive LobbyRead where
  | readError
  | badJSON
  | frame (payload : LobbyInbound)
deriving DecidableEq, Repr

/-- What the environment supplies to one iteration of the lobby read loop: the
read, the value of `time.Now().UTC()` and the value of `uuid.NewString()`. -/
structure LobbyPumpInput where
  read : LobbyRead
  now : Time
  uuid : String
deriving DecidableEq, Repr

/-- The effects of `LobbyClient.readPump` on its collaborators, in program order:
a call of `gameRegistry.Register`, a send on `c.hub.broadcast`, and the deferred
send on `c.hub.unregister` and close of the connection. -/
inductive LobbyEffect where
  | register (gameID : String) (p1 p2 : Int)
  | broadcast (out : Bytes)
  | unregister (client : LobbyClient)
  | connClose
deriving DecidableEq, Repr

/-- The panic of reading a field of `c.user` when `c.user` is nil. -/
inductive Panic where
  | nilPointer
deriving DecidableEq, Repr

/-- The `switch payload.Type` of `LobbyClient.readPump` for one decoded frame, on
the global `gameRegistry`. -/
def LobbyClient.dispatch (codec : LobbyCodec) (c : LobbyClient) (reg : GameRegistry)
    (inp : LobbyPumpInput) (payload : LobbyInbound) :
    Except Panic (GameRegistry × List LobbyEffect) :=
  if payload.Type_ = "challenge" then
    if payload.TargetUserID = 0 then .ok (reg, [])
    else
      match c.user with
      | none => .error .nilPointer
      | some user =>
        let fromName := if user.DisplayName = "" then user.Username else user.DisplayName
        let offer : LobbyChallengeOffer :=
          { Type_ := "challengeOffer", FromUserID := user.ID, FromName := fromName,
            TargetUserID := payload.TargetUserID }
        match codec.marshalOffer offer with
        | none => .ok (reg, [])
        | some out => .ok (reg, [.broadcast out])
  else if payload.Type_ = "challengeAccept" then
    if payload.OpponentUserID = 0 then .ok (reg, [])
    else
      let gameID := inp.uuid
      match c.user with
      | none => .error .nilPointer
      | some user =>
        let reg' := reg.Register gameID user.ID payload.OpponentUserID
        let start : LobbyStartGame :=
          { Type_ := "startGame", GameID := gameID,
            PlayerIDs := [user.ID, payload.OpponentUserID] }
        match codec.marshalStart start with
        | none => .ok (reg', [.register gameID user.ID payload.OpponentUserID])
        | some out =>
          .ok (reg', [.register gameID user.ID payload.OpponentUserID, .broadcast out])
  else
    let txt := payload.Text
    if TrimSpace txt = "" then .ok (reg, [])
    else
      match c.user with
      | none => .error .nilPointer
      | some user =>
        let chat : LobbyMessage :=
          { Type_ := "chat", UserID := user.ID, DisplayName := user.DisplayName, Text := txt,
            SentAt := inp.now }
        match codec.marshalChat chat with
        | none => .ok (reg, [])
        | some out => .ok (reg, [.broadcast out])

/-- The method `LobbyClient.readPump` over the reads the connection yields. A read
error ends the loop and runs the deferred unregister and close; when the list
is used up the loop waits for the next frame. -/
def LobbyClient.readPump (codec : LobbyCodec) (c : LobbyClient) :
    GameRegistry → List LobbyPumpInput → Except Panic (GameRegistry × List LobbyEffect)
  | reg, [] => .ok (reg, [])
  | reg, inp :: rest =>
    match inp.read with
    | .readError => .ok (reg, [.unregister c, .connClose])
    | .badJSON => LobbyClient.readPump codec c reg rest
    | .frame payload =>
      match c.dispatch codec reg inp payload with
      | .error e => .error e
      | .ok (reg', effects) =>
        match LobbyClient.readPump codec c reg' rest with
        | .error e => .error e
        | .ok (reg'', effects') => .ok (reg'', effects ++ effects')

/-- The effects of a run of the lobby read loop, when it did not panic. -/
def lobbyEffects : Except Panic (GameRegistry × List LobbyEffect) → Option (List LobbyEffect)
  | .error _ => none
  | .ok r => some r.2

/-! ## Server start-up -/

/-- A goroutine started by a `go` statement of the start-up. -/
inductive Spawn where
  | gameHubRun
  | lobbyHubRun
deriving DecidableEq, Repr

/-- The goroutines started by `NewServer(db)`, in program order. -/
def NewServer : List Spawn := [.gameHubRun]

/-- The goroutines started by `main` up to `http.ListenAndServe`, in program
order. `dsnSet`, `openOk` and `pingOk` say whether `DATABASE_URL` is set and
whether `sql.Open` and `db.Ping` succeed; `log.Fatal` ends the process else. -/
def main (dsnSet openOk pingOk : Bool) : List Spawn :=
  if !dsnSet then []
  else if !openOk then []
  else if !pingOk then []
  else NewServer ++ [.lobbyHubRun, .gameHubRun]

/-! ## Registered and not yet unregistered -/

/-- Handle `c` is registered and not yet unregistered after the operations `ops`:
some `register c` of the sequence is followed by no `unregister c`. -/
def gameAttached (ops : List GameOp) (c : GameClient) : Prop :=
  ∃ pre post, ops = pre ++ GameOp.register c :: post ∧ GameOp.unregister c ∉ post

/-- The operation is a register or an unregister. -/
def GameOp.isMembershipOp : GameOp → Bool
  | .register _ => true
  | .unregister _ => true
  | _ => false

/-- The invariant of the game hub along a sequence of register and unregister
operations in which no handle is registered twice. -/
def GameTracks (ops : List GameOp) (h : GameHub) : Prop :=
  (∀ g c, c ∈ h.members g ↔ (c.gameID = g ∧ gameAttached ops c)) ∧
  (∀ g, (h.members g).Nodup) ∧
  (∀ c, (h.chans c).closed = true → c ∈ gameRegistered ops ∧ ¬ gameAttached ops c)

/-- The invariant of the lobby hub relative to the handles `R` registered so far:
the members are distinct registered handles, and a queue is open exactly when its
handle is a member or was never registered. -/
def LobbyInv (R : List LobbyClient) (h : LobbyHub) : Prop :=
  h.clients.Nodup ∧ (∀ c ∈ h.clients, c ∈ R) ∧
  (∀ c, (h.chans c).closed = false ↔ (c ∈ h.clients ∨ c ∉ R))

/-- The invariant of the game hub relative to the handles `R` registered so far:
every room is a list of distinct registered handles of that session, and a queue
is open exactly when its handle is a member of its room or was never registered. -/
def GameInv (R : List GameClient) (h : GameHub) : Prop :=
  (∀ g, (h.members g).Nodup) ∧ (∀ g c, c ∈ h.members g → c.gameID = g ∧ c ∈ R) ∧
  (∀ c, (h.chans c).closed = false ↔ (c ∈ h.members c.gameID ∨ c ∉ R))

/-! ## Concrete inputs -/

/-- A serializer that never fails, for the concrete runs below. -/
def sampleMarshal (m : GameMove) : Option Bytes :=
  some (String.join [m.Type_, ":", m.GameID, ":", m.EdgeID, ":", m.PlayerSlot, ":", m.Text])

/-- Handle of identity 7 in session `S1`. -/
def client7 : GameClient := { ptr := 1, userID := 7, gameID := "S1" }

/-- Handle of identity 9 in session `S1`. -/
def client9 : GameClient := { ptr := 2, userID := 9, gameID := "S1" }

/-- Handle of identity 5 in session `S2`. -/
def client5 : GameClient := { ptr := 3, userID := 5, gameID := "S2" }

/-- The canonical move of edge `a1` by side `p1` in session `S1`. -/
def moveA1 : GameMove :=
  { Type_ := "move", GameID := "S1", EdgeID := "a1", PlayerSlot := "p1", Text := "", UserID := 0,
    DisplayName := "", SentAt := 0 }

/-- A hub with rooms `S1` (two members) and `S2` (one member) in which the queue
of `client7` is saturated. -/
def saturatedHub : GameHub :=
  { games := fun k =>
      if k = "S1" then some [client7, client9] else if k = "S2" then some [client5] else none,
    chans := fun c =>
      if c = client7 then { buf := ["m1", "m2"], cap := 2, closed := false } else Chan.make }

/-- A serializer of presence snapshots that never fails, for the concrete runs below. -/
def samplePresenceMarshal (p : LobbyPresence) : Option Bytes :=
  some (String.intercalate "," (p.Type_ :: p.Users.map (fun u => u.DisplayName)))

/-- Lobby handle of user 1, `Ann`. -/
def lobbyAnn : LobbyClient :=
  { ptr := 1, user := some { ID := 1, Username := "ann", DisplayName := "Ann", CreatedAt := 0 } }

/-- Lobby handle of user 2, `Bob`. -/
def lobbyBob : LobbyClient :=
  { ptr := 2, user := some { ID := 2, Username := "bob", DisplayName := "Bob", CreatedAt := 0 } }

/-- A second lobby handle of user 1, `Ann`. -/
def lobbyAnn2 : LobbyClient :=
  { ptr := 3, user := some { ID := 1, Username := "ann", DisplayName := "Ann", CreatedAt := 0 } }

/-- A frame sent by a client: a move of edge `a1` by side `p1` that also carries
fields the server does not read. -/
def inboundA1 : GameMove :=
  { Type_ := "move", GameID := "S9", EdgeID := "a1", PlayerSlot := "p1", Text := "junk",
    UserID := 99, DisplayName := "Mallory", SentAt := 5 }

/-- A read of `inboundA1` whose insert succeeds. -/
def readA1 : PumpInput :=
  { read := .frame inboundA1, now := 100, execErr := false, createdAt := 100 }

/-- A move frame without an edge. -/
def inboundNoEdge : GameMove :=
  { Type_ := "move", GameID := "S1", EdgeID := "", PlayerSlot := "p1", Text := "",
    UserID := 0, DisplayName := "", SentAt := 0 }

/-- A read of `inboundNoEdge`. -/
def readNoEdge : PumpInput :=
  { read := .frame inboundNoEdge, now := 100, execErr := false, createdAt := 100 }

/-- The database with no rows. -/
def emptyDatabase : Database := { moves := [], chat_messages := [] }

/-- The frames sent to the hub among a sequence of effects, in order. -/
def broadcastsOf : List Effect → List GameMove
  | [] => []
  | .broadcast m :: rest => m :: broadcastsOf rest
  | _ :: rest => broadcastsOf rest

/-- The frame is an accepted move: type `move`, an edge, a side `p1` or `p2`. -/
def acceptedMove (incoming : GameMove) : Bool :=
  decide (incoming.Type_ = "move") && decide (incoming.EdgeID ≠ "")
    && (decide (incoming.PlayerSlot = "p1") || decide (incoming.PlayerSlot = "p2"))

/-! ## Read loops running side by side -/

/-- The goroutine `go client.readPump()` of one connection, between two of its
steps on shared state: `pending` holds the frame that its loop has built and
not yet sent on `c.hub.broadcast` (the insert of that frame is done), `reads`
what the connection will still yield. -/
structure Pump where
  client : GameClient
  pending : List GameMove
  reads : List PumpInput
deriving DecidableEq, Repr

/-- One step of a read loop on the shared database: either the send
`c.hub.broadcast <- move` of the pending frame, which the hub receives now, or
the next read with its `switch`, whose insert happens now and whose frame for
the hub becomes pending. A read error ends the loop (its deferred unregister
and close touch neither the database nor the channel `broadcast` and are left
out of this view). Returns the database, the frames the hub receives in this
step and the loop afterwards. -/
def pumpStep (db : Option Database) (p : Pump) : Option Database × List GameMove × Pump :=
  match p.pending with
  | m :: rest => (db, [m], { p with pending := rest })
  | [] =>
    match p.reads with
    | [] => (db, [], p)
    | inp :: reads =>
      match inp.read with
      | .readError => (db, [], { p with reads := [] })
      | .badJSON => (db, [], { p with reads := reads })
      | .frame incoming =>
        let r := p.client.dispatch db inp incoming
        (r.1, [], { client := p.client, pending := broadcastsOf r.2, reads := reads })

/-- The read loops of the connections under a schedule: `sched` names, step by
step, the loop that runs next (a name without loop is skipped). Nothing in the
source orders the steps of two loops. Returns the database, the frames in the
order the hub receives them, and the loops afterwards. -/
def runPumps : List Nat → Option Database → List Pump →
    Option Database × List GameMove × List Pump
  | [], db, pumps => (db, [], pumps)
  | i :: sched, db, pumps =>
    match pumps[i]? with
    | none => runPumps sched db pumps
    | some p =>
      let s := pumpStep db p
      let r := runPumps sched s.1 (pumps.set i s.2.2)
      (r.1, s.2.1 ++ r.2.1, r.2.2)

/-- The frames built and not yet sent, over all loops. -/
def pendingAll : List Pump → List GameMove
  | [] => []
  | p :: pumps => p.pending ++ pendingAll pumps

/-- The schedule never lets a loop take its next read while a frame of some loop
is still waiting to be sent: each insert is followed by its own broadcast before
any other insert. -/
def undisturbed : List Nat → Option Database → List Pump → Bool
  | [], _, _ => true
  | i :: sched, db, pumps =>
    match pumps[i]? with
    | none => undisturbed sched db pumps
    | some p =>
      let s := pumpStep db p
      (!p.pending.isEmpty || pumps.all (fun q => q.pending.isEmpty))
        && undisturbed sched s.1 (pumps.set i s.2.2)

/-- The read yields an accepted move frame whose insert succeeds. -/
def moveRead (inp : PumpInput) : Bool :=
  match inp.read with
  | .frame incoming => acceptedMove incoming && !inp.execErr
  | _ => false

/-- The loop belongs to a connection of session `g` and will read only accepted
move frames whose inserts succeed. -/
def MovePump (g : String) (p : Pump) : Prop :=
  p.client.gameID = g ∧ ∀ inp ∈ p.reads, moveRead inp = true

/-- The stored moves of session `g`, as the query of `loadMoves` lists them. -/
def storedMoves (g : String) (d : Database) : List StoredMove :=
  (d.moves.filter (fun r => decide (r.game_id = g))).map
    (fun r => { EdgeID := r.edge_id, PlayerSlot := r.player_slot })

/-- An environment of `handleGameWS` in which both queries and every write succeed. -/
def calmJoin : JoinEnv :=
  { movesQueryErr := false, chatQueryErr := false, writeErr := fun _ => false, ptr := 7 }

/-- A database with two moves and one chat line of session `S1` and one move of
session `S2`. -/
def sampleDatabase : Database :=
  { moves :=
      [{ game_id := "S1", user_id := 7, edge_id := "a1", player_slot := "p1" },
       { game_id := "S2", user_id := 5, edge_id := "z9", player_slot := "p1" },
       { game_id := "S1", user_id := 9, edge_id := "b2", player_slot := "p2" }],
    chat_messages :=
      [{ game_id := "S1", user_id := 9, display_name := "Bob", message := "gl", room_type := "game",
         created_at := 3 }] }

/-- A second decoded move frame, of edge `b2` by side `p2`. -/
def inboundB2 : GameMove :=
  { Type_ := "move", GameID := "", EdgeID := "b2", PlayerSlot := "p2", Text := "",
    UserID := 0, DisplayName := "", SentAt := 0 }

/-- A read of `inboundB2` whose insert succeeds. -/
def readB2 : PumpInput :=
  { read := .frame inboundB2, now := 101, execErr := false, createdAt := 101 }

/-- The canonical move of edge `b2` by side `p2` in session `S1`. -/
def moveB2 : GameMove :=
  { Type_ := "move", GameID := "S1", EdgeID := "b2", PlayerSlot := "p2", Text := "", UserID := 0,
    DisplayName := "", SentAt := 0 }

/-- The read loops of `client7`, about to read the move `a1`, and of `client9`,
about to read the move `b2`. -/
def racingPumps : List Pump :=
  [{ client := client7, pending := [], reads := [readA1] },
   { client := client9, pending := [], reads := [readB2] }]

/-- Loop 0 inserts, loop 1 inserts and sends, then loop 0 sends. -/
def racingSchedule : List Nat := [0, 1, 1, 0]

/-- A decoded chat frame with text `hi` and no display name. -/
def inboundHi : GameMove :=
  { Type_ := "chat", GameID := "", EdgeID := "", PlayerSlot := "", Text := " hi ",
    UserID := 0, DisplayName := "", SentAt := 0 }

/-- A read of `inboundHi` at instant 100 whose insert succeeds with `created_at` 102. -/
def readHi : PumpInput :=
  { read := .frame inboundHi, now := 100, execErr := false, createdAt := 102 }

/-- The chat frame that `GameClient.readPump` sends to the hub for `inboundHi` read
by `client7` at instant 100. -/
def liveHi : GameMove :=
  { Type_ := "chat", GameID := "S1", Text := "hi", UserID := 7, DisplayName := "Player",
    SentAt := 100, EdgeID := "", PlayerSlot := "" }

/-- The chat frame that `loadGameChat` gives back for the row stored for `inboundHi`. -/
def replayedHi : GameMove :=
  { Type_ := "chat", GameID := "S1", Text := "hi", UserID := 7, DisplayName := "",
    SentAt := 102, EdgeID := "", PlayerSlot := "" }

/-- The identities listed by a presence snapshot, in order. -/
def userIds (users : List LobbyUser) : List Int := users.map (fun u => u.UserID)

/-- Handle `c` is attached for identity `id`: it has a user and that user has this id. -/
def hasIdentity (c : LobbyClient) (id : Int) : Prop := ∃ u, c.user = some u ∧ u.ID = id

/-- A lobby in which `Ann` is attached through two handles and `Bob` through one. -/
def lobbyTwice : LobbyHub := { clients := [lobbyAnn, lobbyBob, lobbyAnn2], chans := fun _ => Chan.make }

/-- What a run of the lobby hub leaves to observe from handle `c`: the members,
the presence list of the members, the queue of `c` and whether it is closed. -/
def lobbyObserve (c : LobbyClient) :
    Except Fault LobbyHub → Option (List LobbyClient × List LobbyUser × List Bytes × Bool)
  | .error _ => none
  | .ok h => some (h.clients, h.currentUsers, (h.chans c).buf, (h.chans c).closed)

/-- `Ann` and `Bob` attach, then 255 chat lines are broadcast while no writer
takes anything from its queue. -/
def slowAnnOps : List LobbyOp :=
  [.register lobbyAnn, .register lobbyBob] ++ List.replicate 255 (.broadcast "hello")

/-- What a run of the game hub leaves to observe for room `k` and handle `c`: the
entry of `k` in the map `games`, the queue of `c` and whether it is closed. -/
def gameObserve (k : String) (c : GameClient) :
    Except Fault GameHub → Option (Option (List GameClient) × List Bytes × Bool)
  | .error _ => none
  | .ok h => some (h.games k, (h.chans c).buf, (h.chans c).closed)

/-- Handle `client7` joins room `S1` alone, then 257 moves of `S1` are broadcast
while its writer takes nothing from its queue. -/
def slowClientOps : List GameOp :=
  .register client7 :: List.replicate 257 (.broadcast moveA1)

/-- Serializers of the lobby frames that never fail, for the concrete runs below. -/
def sampleCodec : LobbyCodec :=
  { marshalOffer := fun o => some (String.join ["offer:", o.FromName]),
    marshalStart := fun st => some (String.join ["start:", st.GameID]),
    marshalChat := fun m => some (String.join ["chat:", m.DisplayName, ":", m.Text]) }

/-- A decoded lobby frame of the unknown type `ping` that carries a text. -/
def inboundPing : LobbyInbound :=
  { Type_ := "ping", Text := "hello", TargetUserID := 0, OpponentUserID := 0 }

/-- A read of `inboundPing`. -/
def readPing : LobbyPumpInput := { read := .frame inboundPing, now := 100, uuid := "g-1" }

/-- A decoded lobby frame of the unknown type `ping` with a blank text. -/
def inboundBlankPing : LobbyInbound :=
  { Type_ := "ping", Text := "  ", TargetUserID := 4, OpponentUserID := 4 }

/-- A read of `inboundBlankPing`. -/
def readBlankPing : LobbyPumpInput :=
  { read := .frame inboundBlankPing, now := 100, uuid := "g-1" }

/-- A decoded `challengeAccept` frame that names opponent 2. -/
def inboundAccept : LobbyInbound :=
  { Type_ := "challengeAccept", Text := "", TargetUserID := 0, OpponentUserID := 2 }

/-- A read of `inboundAccept` for which `uuid.NewString()` gives `g-1`. -/
def readAccept : LobbyPumpInput := { read := .frame inboundAccept, now := 100, uuid := "g-1" }

/-! # Theorems -/

set_option maxRecDepth 100000

/-! ## Fan-out lemmas -/

section FanOut

variable {C : Type} [DecidableEq C]

theorem trySend_open_not_full {ch : Chan} (data : Bytes) (ho : ch.closed = false)
    (hf : ch.full = false) :
    ch.trySend data = .ok (some { ch with buf := ch.buf ++ [data] }) := by
  have hlt : ch.buf.length < ch.cap := by
    simpa [Chan.full] using hf
  simp [Chan.trySend, ho, hlt]

theorem trySend_open_full {ch : Chan} (data : Bytes) (ho : ch.closed = false)
    (hf : ch.full = true) : ch.trySend data = .ok none := by
  have hle : ¬ ch.buf.length < ch.cap := by
    have : ch.cap ≤ ch.buf.length := by simpa [Chan.full] using hf
    omega
  simp [Chan.trySend, ho, hle]

theorem close_open {ch : Chan} (ho : ch.closed = false) :
    ch.close = .ok { ch with closed := true } := by
  simp [Chan.close, ho]

/-- On a set whose members all have an open channel the fan-out does not panic,
keeps exactly the members whose channel was not full, and changes each visited
channel by `afterFanOut` and no other channel. -/
theorem fanOut_spec (data : Bytes) :
    ∀ (cs : List C) (chans : C → Chan), cs.Nodup →
      (∀ c ∈ cs, (chans c).closed = false) →
      ∃ chans', fanOut data cs chans
          = .ok (cs.filter (fun c => !(chans c).full), chans') ∧
        (∀ c ∈ cs, chans' c = afterFanOut data (chans c)) ∧
        (∀ c, c ∉ cs → chans' c = chans c)
  | [], chans, _, _ => ⟨chans, by simp [fanOut], by simp, by simp⟩
  | c :: rest, chans, hnd, hopen => by
    have hc : c ∉ rest := (List.nodup_cons.mp hnd).1
    have hrest : rest.Nodup := (List.nodup_cons.mp hnd).2
    have hco : (chans c).closed = false := hopen c (List.mem_cons_self _ _)
    have hother : ∀ (ch : Chan), ∀ x ∈ rest, Function.update chans c ch x = chans x := by
      intro ch x hx
      have hne : x ≠ c := fun h => hc (h ▸ hx)
      simp [Function.update, hne]
    cases hfull : (chans c).full with
    | false =>
      obtain ⟨chans', hrun, hin, hout⟩ :=
        fanOut_spec data rest
          (Function.update chans c { chans c with buf := (chans c).buf ++ [data] }) hrest
          (by intro x hx; rw [hother _ x hx]; exact hopen x (List.mem_cons_of_mem _ hx))
      refine ⟨chans', ?_, ?_, ?_⟩
      · have hfilt : List.filter (fun x => !(Function.update chans c
              { chans c with buf := (chans c).buf ++ [data] } x).full) rest
            = List.filter (fun x => !(chans x).full) rest := by
          apply List.filter_congr
          intro x hx
          rw [hother _ x hx]
        simp only [fanOut, trySend_open_not_full data hco hfull, hrun, hfilt]
        simp [List.filter_cons, hfull]
      · intro x hx
        rcases List.mem_cons.mp hx with rfl | hx
        · rw [hout _ hc]
          simp [afterFanOut, hfull]
        · rw [hin x hx, hother _ x hx]
      · intro x hx
        have hxc : x ≠ c := fun h => hx (h ▸ List.mem_cons_self _ _)
        have hxr : x ∉ rest := fun h => hx (List.mem_cons_of_mem _ h)
        rw [hout x hxr]
        simp [Function.update, hxc]
    | true =>
      obtain ⟨chans', hrun, hin, hout⟩ :=
        fanOut_spec data rest
          (Function.update chans c { chans c with closed := true }) hrest
          (by intro x hx; rw [hother _ x hx]; exact hopen x (List.mem_cons_of_mem _ hx))
      refine ⟨chans', ?_, ?_, ?_⟩
      · have hfilt : List.filter (fun x => !(Function.update chans c
              { chans c with closed := true } x).full) rest
            = List.filter (fun x => !(chans x).full) rest := by
          apply List.filter_congr
          intro x hx
          rw [hother _ x hx]
        simp only [fanOut, trySend_open_full data hco hfull, close_open hco, hrun, hfilt]
        simp [List.filter_cons, hfull]
      · intro x hx
        rcases List.mem_cons.mp hx with rfl | hx
        · rw [hout _ hc]
          simp [afterFanOut, hfull]
        · rw [hin x hx, hother _ x hx]
      · intro x hx
        have hxc : x ≠ c := fun h => hx (h ▸ List.mem_cons_self _ _)
        have hxr : x ∉ rest := fun h => hx (List.mem_cons_of_mem _ h)
        rw [hout x hxr]
        simp [Function.update, hxc]

end FanOut

/-! ## Game hub: one broadcast -/

theorem members_update_same (h : GameHub) (chans : GameClient → Chan) (k : String)
    (room : List GameClient) :
    GameHub.members { games := Function.update h.games k (some room), chans := chans } k
      = room := by
  simp [GameHub.members]

theorem members_update_other (h : GameHub) (chans : GameClient → Chan) (k k' : String)
    (room : Option (List GameClient)) (hk : k' ≠ k) :
    GameHub.members { games := Function.update h.games k room, chans := chans } k'
      = h.members k' := by
  simp [GameHub.members, Function.update, hk]

/-- C1. One broadcast of `move` handled by `GameHub.Run` ends without a panic and
without waiting (every send is the non-blocking `select`), for a payload that
serializes to `data` and a room whose members are distinct handles with open
queues, as they are in every state the hub reaches (`gameInv_run`). For each
handle `c`: a member of room `move.GameID` whose queue is not
full gets `data` at the tail of its queue and stays a member; a member whose queue
is full leaves the room and its queue is closed; a handle that is not a member of
that room keeps its queue and its membership of every room. The room afterwards
holds exactly the members whose queue was not full, and every other room is
unchanged. -/
theorem gameHub_broadcast_effect (marshal : GameMove → Option Bytes) (h : GameHub)
    (move : GameMove) (data : Bytes)
    (hdata : marshal move = some data)
    (hnodup : (h.members move.GameID).Nodup)
    (hopen : ∀ c ∈ h.members move.GameID, (h.chans c).closed = false) :
    ∃ h', h.step marshal (.broadcast move) = .ok h' ∧
      (∀ c ∈ h.members move.GameID, (h.chans c).full = false →
        h'.chans c = { h.chans c with buf := (h.chans c).buf ++ [data] } ∧
        c ∈ h'.members move.GameID) ∧
      (∀ c ∈ h.members move.GameID, (h.chans c).full = true →
        h'.chans c = { h.chans c with closed := true } ∧
        c ∉ h'.members move.GameID) ∧
      (∀ c, c ∉ h.members move.GameID →
        h'.chans c = h.chans c ∧ ∀ k, (c ∈ h'.members k ↔ c ∈ h.members k)) ∧
      h'.members move.GameID
        = (h.members move.GameID).filter (fun c => !(h.chans c).full) ∧
      (∀ k, k ≠ move.GameID → h'.games k = h.games k) := by
  cases hroom : h.games move.GameID with
  | none =>
    have hmem : h.members move.GameID = [] := by simp [GameHub.members, hroom]
    refine ⟨h, by simp [GameHub.step, hroom], ?_, ?_, ?_, ?_, ?_⟩
    · intro c hc; simp [hmem] at hc
    · intro c hc; simp [hmem] at hc
    · intro c _; exact ⟨rfl, fun _ => Iff.rfl⟩
    · simp [hmem]
    · intro k _; rfl
  | some room =>
    have hmem : h.members move.GameID = room := by simp [GameHub.members, hroom]
    rw [hmem] at hnodup hopen
    obtain ⟨chans', hrun, hin, hout⟩ := fanOut_spec data room h.chans hnodup hopen
    refine ⟨{ games := Function.update h.games move.GameID
                (some (room.filter (fun c => !(h.chans c).full))), chans := chans' },
      by simp [GameHub.step, hroom, hdata, hrun], ?_, ?_, ?_, ?_, ?_⟩
    · intro c hc hfull
      rw [hmem] at hc
      refine ⟨?_, ?_⟩
      · show chans' c = _
        rw [hin c hc]; simp [afterFanOut, hfull]
      · rw [members_update_same]
        simp [List.mem_filter, hc, hfull]
    · intro c hc hfull
      rw [hmem] at hc
      refine ⟨?_, ?_⟩
      · show chans' c = _
        rw [hin c hc]; simp [afterFanOut, hfull]
      · rw [members_update_same]
        simp [List.mem_filter, hfull]
    · intro c hc
      rw [hmem] at hc
      refine ⟨hout c hc, ?_⟩
      intro k
      by_cases hk : k = move.GameID
      · subst hk
        rw [members_update_same, hmem]
        simp [List.mem_filter, hc]
      · rw [members_update_other _ _ _ _ _ hk]
    · rw [members_update_same, hmem]
    · intro k hk
      simp [Function.update, hk]


theorem gameHub_broadcast_effect_witness :
    ∃ h', saturatedHub.step sampleMarshal (.broadcast moveA1) = .ok h' ∧
      h'.members "S1" = [client9] ∧
      (h'.chans client9).buf = ["move:S1:a1:p1:"] ∧
      (h'.chans client7).closed = true ∧
      h'.chans client5 = saturatedHub.chans client5 := by
  obtain ⟨h', hstep, hsent, hdropped, hothers, hroom, _⟩ :=
    gameHub_broadcast_effect sampleMarshal saturatedHub moveA1 "move:S1:a1:p1:"
      (by decide) (by decide) (by decide)
  refine ⟨h', hstep, ?_, ?_, ?_, ?_⟩
  · exact hroom.trans (by decide)
  · rw [(hsent client9 (by decide) (by decide)).1]; decide
  · rw [(hdropped client7 (by decide) (by decide)).1]
  · exact (hothers client5 (by decide)).1


/-! ## Game hub: sequences of register and unregister -/

theorem gameRun_append (marshal : GameMove → Option Bytes) :
    ∀ (ops1 ops2 : List GameOp) (h : GameHub),
      GameHub.Run marshal h (ops1 ++ ops2)
        = match GameHub.Run marshal h ops1 with
          | .error e => .error e
          | .ok h' => GameHub.Run marshal h' ops2
  | [], ops2, h => by simp [GameHub.Run]
  | op :: ops1, ops2, h => by
    simp only [List.cons_append, GameHub.Run]
    cases h.step marshal op with
    | error e => rfl
    | ok h' => exact gameRun_append marshal ops1 ops2 h'

theorem gameRegistered_append :
    ∀ (ops1 ops2 : List GameOp),
      gameRegistered (ops1 ++ ops2) = gameRegistered ops1 ++ gameRegistered ops2
  | [], _ => by simp [gameRegistered]
  | op :: ops1, ops2 => by
    cases op <;> simp [gameRegistered, gameRegistered_append ops1 ops2]

theorem gameAttached_snoc (ops : List GameOp) (op : GameOp) (c : GameClient) :
    gameAttached (ops ++ [op]) c ↔
      op = .register c ∨ (gameAttached ops c ∧ op ≠ .unregister c) := by
  constructor
  · rintro ⟨pre, post, heq, hn⟩
    rcases List.eq_nil_or_concat post with rfl | ⟨post', b, hpost⟩
    · have h2 := List.append_inj' heq rfl
      left
      simpa using h2.2
    · rw [List.concat_eq_append] at hpost
      subst hpost
      have heq' : ops ++ [op] = (pre ++ GameOp.register c :: post') ++ [b] := by
        rw [heq]; simp
      have h2 := List.append_inj' heq' rfl
      have hb : op = b := by simpa using h2.2
      right
      refine ⟨⟨pre, post', h2.1, ?_⟩, ?_⟩
      · intro hmem; exact hn (List.mem_append_left _ hmem)
      · intro hop
        apply hn
        rw [← hb, hop]
        simp
  · rintro (rfl | ⟨⟨pre, post, rfl, hn⟩, hne⟩)
    · exact ⟨ops, [], rfl, by simp⟩
    · refine ⟨pre, post ++ [op], by simp, ?_⟩
      intro hmem
      rcases List.mem_append.mp hmem with hmem | hmem
      · exact hn hmem
      · apply hne
        simpa using (List.mem_singleton.mp hmem).symm

theorem gameAttached_registered {ops : List GameOp} {c : GameClient}
    (h : gameAttached ops c) : c ∈ gameRegistered ops := by
  obtain ⟨pre, post, rfl, _⟩ := h
  rw [gameRegistered_append]
  simp [gameRegistered]

theorem mem_setAdd {C : Type} [DecidableEq C] (room : List C) (c x : C) :
    x ∈ setAdd room c ↔ x = c ∨ x ∈ room := by
  unfold setAdd
  split
  · constructor
    · intro hx; exact Or.inr hx
    · rintro (rfl | hx)
      · assumption
      · exact hx
  · simp [List.mem_append, or_comm]

theorem nodup_setAdd {C : Type} [DecidableEq C] (room : List C) (c : C) (h : room.Nodup) :
    (setAdd room c).Nodup := by
  unfold setAdd
  split
  · exact h
  · rename_i hc
    rw [List.nodup_append]
    refine ⟨h, List.nodup_singleton c, ?_⟩
    intro a ha hb
    exact hc ((List.mem_singleton.mp hb) ▸ ha)

theorem mem_setDelete {C : Type} [DecidableEq C] (room : List C) (c x : C) :
    x ∈ setDelete room c ↔ x ∈ room ∧ x ≠ c := by
  simp [setDelete, List.mem_filter]

theorem nodup_setDelete {C : Type} [DecidableEq C] (room : List C) (c : C) (h : room.Nodup) :
    (setDelete room c).Nodup :=
  h.filter _

theorem gameTracks_run (marshal : GameMove → Option Bytes) (ops : List GameOp) :
    (∀ op ∈ ops, op.isMembershipOp = true) → (gameRegistered ops).Nodup →
      ∃ h, GameHub.Run marshal NewGameHub ops = .ok h ∧ GameTracks ops h := by
  induction ops using List.reverseRecOn with
  | nil =>
    intro _ _
    refine ⟨NewGameHub, rfl, ?_, ?_, ?_⟩
    · intro g c
      constructor
      · intro hc; simp [GameHub.members, NewGameHub] at hc
      · rintro ⟨_, pre, post, heq, _⟩
        simp at heq
    · intro g; simp [GameHub.members, NewGameHub]
    · intro c hc; simp [NewGameHub, Chan.make] at hc
  | append_singleton ops op ih =>
    intro hops honce
    rw [gameRegistered_append] at honce
    obtain ⟨h, hrun, hmem, hnd, hclosed⟩ :=
      ih (fun o ho => hops o (List.mem_append_left _ ho)) (List.nodup_append.mp honce).1
    have hop := hops op (by simp)
    rw [gameRun_append, hrun]
    simp only [GameHub.Run]
    cases op with
    | broadcast m => simp [GameOp.isMembershipOp] at hop
    | recv c => simp [GameOp.isMembershipOp] at hop
    | register c =>
      have hfresh : c ∉ gameRegistered ops := by
        intro hc
        exact (List.nodup_append.mp honce).2.2 hc (by simp [gameRegistered])
      have hroom : (match h.games c.gameID with | none => [] | some room => room)
          = h.members c.gameID := rfl
      refine ⟨{ games := Function.update h.games c.gameID (some (setAdd (h.members c.gameID) c)),
                chans := h.chans }, ?_, ?_, ?_, ?_⟩
      · simp [GameHub.step, hroom]
      · intro g x
        rw [gameAttached_snoc]
        by_cases hg : g = c.gameID
        · subst hg
          rw [members_update_same, mem_setAdd, hmem]
          constructor
          · rintro (rfl | ⟨hx, hatt⟩)
            · exact ⟨rfl, Or.inl rfl⟩
            · exact ⟨hx, Or.inr ⟨hatt, by simp⟩⟩
          · rintro ⟨hx, hreg | ⟨hatt, _⟩⟩
            · left
              simpa using hreg.symm
            · exact Or.inr ⟨hx, hatt⟩
        · rw [members_update_other _ _ _ _ _ hg, hmem]
          constructor
          · rintro ⟨hx, hatt⟩
            exact ⟨hx, Or.inr ⟨hatt, by simp⟩⟩
          · rintro ⟨hx, hreg | ⟨hatt, _⟩⟩
            · exfalso
              apply hg
              have : x = c := by simpa using hreg.symm
              rw [← hx, this]
            · exact ⟨hx, hatt⟩
      · intro g
        by_cases hg : g = c.gameID
        · subst hg
          rw [members_update_same]
          exact nodup_setAdd _ _ (hnd _)
        · rw [members_update_other _ _ _ _ _ hg]
          exact hnd g
      · intro x hx
        obtain ⟨hreg, hnatt⟩ := hclosed x hx
        refine ⟨by rw [gameRegistered_append]; exact List.mem_append_left _ hreg, ?_⟩
        rw [gameAttached_snoc]
        rintro (hreg' | ⟨hatt, _⟩)
        · have : x = c := by simpa using hreg'.symm
          exact hfresh (this ▸ hreg)
        · exact hnatt hatt
    | unregister c =>
      by_cases hc : c ∈ h.members c.gameID
      · have hopen : (h.chans c).closed = false := by
          cases hcl : (h.chans c).closed with
          | false => rfl
          | true => exact absurd ((hmem _ _).mp hc).2 (hclosed c hcl).2
        obtain ⟨room, hroom⟩ : ∃ room, h.games c.gameID = some room := by
          cases hg : h.games c.gameID with
          | none => simp [GameHub.members, hg] at hc
          | some room => exact ⟨room, rfl⟩
        have hmr : h.members c.gameID = room := by simp [GameHub.members, hroom]
        rw [hmr] at hc
        have key : ∃ h', h.step marshal (.unregister c) = .ok h' ∧
            h'.chans = Function.update h.chans c { h.chans c with closed := true } ∧
            (∀ g, h'.members g = if g = c.gameID then setDelete room c else h.members g) := by
          by_cases hlen : (setDelete room c).length = 0
          · refine ⟨{ games := Function.update h.games c.gameID none,
                      chans := Function.update h.chans c { h.chans c with closed := true } },
              by simp [GameHub.step, hroom, hc, close_open hopen, hlen], rfl, ?_⟩
            intro g
            by_cases hg : g = c.gameID
            · subst hg
              have : setDelete room c = [] := List.length_eq_zero.mp hlen
              simp [GameHub.members, this]
            · rw [members_update_other _ _ _ _ _ hg]; simp [hg]
          · refine ⟨{ games := Function.update h.games c.gameID (some (setDelete room c)),
                      chans := Function.update h.chans c { h.chans c with closed := true } },
              by simp [GameHub.step, hroom, hc, close_open hopen, hlen], rfl, ?_⟩
            intro g
            by_cases hg : g = c.gameID
            · subst hg
              rw [members_update_same]; simp
            · rw [members_update_other _ _ _ _ _ hg]; simp [hg]
        obtain ⟨h', hstep, hch, hmem'⟩ := key
        refine ⟨h', by rw [hstep], ?_, ?_, ?_⟩
        · intro g x
          rw [gameAttached_snoc, hmem' g]
          by_cases hg : g = c.gameID
          · subst hg
            simp only [if_true]
            rw [mem_setDelete, ← hmr, hmem]
            constructor
            · rintro ⟨⟨hx, hatt⟩, hne⟩
              exact ⟨hx, Or.inr ⟨hatt, by simpa using fun h => hne h.symm⟩⟩
            · rintro ⟨hx, hreg | ⟨hatt, hne⟩⟩
              · simp at hreg
              · exact ⟨⟨hx, hatt⟩, by intro hxc; apply hne; rw [hxc]⟩
          · simp only [hg, if_false]
            rw [hmem]
            constructor
            · rintro ⟨hx, hatt⟩
              refine ⟨hx, Or.inr ⟨hatt, ?_⟩⟩
              intro heq
              have : c = x := by simpa using heq
              exact hg (by rw [← hx, this])
            · rintro ⟨hx, hreg | ⟨hatt, _⟩⟩
              · simp at hreg
              · exact ⟨hx, hatt⟩
        · intro g
          rw [hmem' g]
          by_cases hg : g = c.gameID
          · simp only [hg, if_true]
            exact nodup_setDelete _ _ (hmr ▸ hnd c.gameID)
          · simp only [hg, if_false]
            exact hnd g
        · intro x hx
          rw [hch] at hx
          rw [gameRegistered_append, gameAttached_snoc]
          by_cases hxc : x = c
          · subst hxc
            have hatt : gameAttached ops x := ((hmem _ _).mp (hmr ▸ hc)).2
            refine ⟨List.mem_append_left _ (gameAttached_registered hatt), ?_⟩
            rintro (hreg | ⟨_, hne⟩)
            · simp at hreg
            · exact hne rfl
          · simp [Function.update, hxc] at hx
            obtain ⟨hreg, hnatt⟩ := hclosed x hx
            refine ⟨List.mem_append_left _ hreg, ?_⟩
            rintro (hreg' | ⟨hatt, _⟩)
            · simp at hreg'
            · exact hnatt hatt
      · have hstep : h.step marshal (.unregister c) = .ok h := by
          cases hg : h.games c.gameID with
          | none => simp [GameHub.step, hg]
          | some room =>
            have : c ∉ room := by simpa [GameHub.members, hg] using hc
            simp [GameHub.step, hg, this]
        refine ⟨h, by rw [hstep], ?_, hnd, ?_⟩
        · intro g x
          rw [gameAttached_snoc, hmem]
          constructor
          · rintro ⟨hx, hatt⟩
            refine ⟨hx, Or.inr ⟨hatt, ?_⟩⟩
            intro heq
            have hcx : c = x := by simpa using heq
            apply hc
            rw [hmem]
            exact ⟨rfl, hcx ▸ hatt⟩
          · rintro ⟨hx, hreg | ⟨hatt, _⟩⟩
            · simp at hreg
            · exact ⟨hx, hatt⟩
        · intro x hx
          obtain ⟨hreg, hnatt⟩ := hclosed x hx
          rw [gameRegistered_append, gameAttached_snoc]
          refine ⟨List.mem_append_left _ hreg, ?_⟩
          rintro (hreg' | ⟨hatt, _⟩)
          · simp at hreg'
          · exact hnatt hatt


theorem afterFanOut_ne (data : Bytes) (ch : Chan) (ho : ch.closed = false) :
    afterFanOut data ch ≠ ch := by
  intro heq
  unfold afterFanOut at heq
  split at heq
  · have := congrArg Chan.closed heq
    simp [ho] at this
  · have := congrArg (fun c => c.buf.length) heq
    simp at this

/-- C2. After any finite sequence of register and unregister operations handled
one at a time by `GameHub.Run` from the empty hub, with no handle registered
twice, the run ends without a panic and, for every session id `g`, the members of
room `g` (a list without repetition) are exactly the handles with `gameID = g`
that were registered and not unregistered since. A following broadcast of any
move that serializes touches the queue of exactly those handles of its room, and
the unregister of a handle that is not a member leaves the hub as it is. -/
theorem gameHub_membership_exact (marshal : GameMove → Option Bytes) (ops : List GameOp)
    (hops : ∀ op ∈ ops, op.isMembershipOp = true)
    (honce : (gameRegistered ops).Nodup) :
    ∃ h, GameHub.Run marshal NewGameHub ops = .ok h ∧
      (∀ g c, c ∈ h.members g ↔ (c.gameID = g ∧ gameAttached ops c)) ∧
      (∀ g, (h.members g).Nodup) ∧
      (∀ move data, marshal move = some data →
        ∃ h', h.step marshal (.broadcast move) = .ok h' ∧
          ∀ c, h'.chans c ≠ h.chans c ↔ (c.gameID = move.GameID ∧ gameAttached ops c)) ∧
      (∀ c, c ∉ h.members c.gameID → h.step marshal (.unregister c) = .ok h) := by
  obtain ⟨h, hrun, hmem, hnd, hclosed⟩ := gameTracks_run marshal ops hops honce
  refine ⟨h, hrun, hmem, hnd, ?_, ?_⟩
  · intro move data hdata
    cases hroom : h.games move.GameID with
    | none =>
      refine ⟨h, by simp [GameHub.step, hroom], ?_⟩
      intro c
      rw [← hmem]
      simp [GameHub.members, hroom]
    | some room =>
      have hmr : h.members move.GameID = room := by simp [GameHub.members, hroom]
      have hopen : ∀ c ∈ room, (h.chans c).closed = false := by
        intro c hc
        cases hcl : (h.chans c).closed with
        | false => rfl
        | true => exact absurd ((hmem _ _).mp (hmr ▸ hc)).2 (hclosed c hcl).2
      obtain ⟨chans', hfan, hin, hout⟩ :=
        fanOut_spec data room h.chans (hmr ▸ hnd move.GameID) hopen
      refine ⟨{ games := Function.update h.games move.GameID
                  (some (room.filter (fun c => !(h.chans c).full))), chans := chans' },
        by simp [GameHub.step, hroom, hdata, hfan], ?_⟩
      intro c
      rw [← hmem, hmr]
      show chans' c ≠ h.chans c ↔ c ∈ room
      constructor
      · intro hne
        by_contra hc
        exact hne (hout c hc)
      · intro hc
        rw [hin c hc]
        exact afterFanOut_ne data _ (hopen c hc)
  · intro c hc
    cases hg : h.games c.gameID with
    | none => simp [GameHub.step, hg]
    | some room =>
      have : c ∉ room := by simpa [GameHub.members, hg] using hc
      simp [GameHub.step, hg, this]

theorem gameHub_membership_exact_witness :
    ∃ h, GameHub.Run sampleMarshal NewGameHub
        [.register client7, .register client9, .unregister client7, .unregister client5] = .ok h ∧
      client9 ∈ h.members "S1" ∧ (h.members "S1").Nodup := by
  obtain ⟨h, hrun, hmem, hnd, _, _⟩ :=
    gameHub_membership_exact sampleMarshal
      [.register client7, .register client9, .unregister client7, .unregister client5]
      (by decide) (by decide)
  refine ⟨h, hrun, ?_, hnd "S1"⟩
  rw [hmem]
  exact ⟨rfl, [.register client7], [.unregister client7, .unregister client5], rfl, by decide⟩


theorem afterFanOut_closed (data : Bytes) (ch : Chan) (ho : ch.closed = false) :
    (afterFanOut data ch).closed = ch.full := by
  unfold afterFanOut
  cases hf : ch.full <;> simp [ho]

/-! ## Game hub: the invariant of reachable states -/

theorem gameStep_register (marshal : GameMove → Option Bytes) (h : GameHub) (c : GameClient) :
    h.step marshal (.register c)
      = .ok { games := Function.update h.games c.gameID (some (setAdd (h.members c.gameID) c)),
              chans := h.chans } := by
  have hroom : (match h.games c.gameID with | none => [] | some room => room)
      = h.members c.gameID := rfl
  simp [GameHub.step, hroom]

theorem gameStep_unregister_member (marshal : GameMove → Option Bytes) (h : GameHub)
    (c : GameClient) (hc : c ∈ h.members c.gameID) (hopen : (h.chans c).closed = false) :
    ∃ h', h.step marshal (.unregister c) = .ok h' ∧
      h'.chans = Function.update h.chans c { h.chans c with closed := true } ∧
      (∀ g, h'.members g
        = if g = c.gameID then setDelete (h.members c.gameID) c else h.members g) := by
  obtain ⟨room, hroom⟩ : ∃ room, h.games c.gameID = some room := by
    cases hg : h.games c.gameID with
    | none => simp [GameHub.members, hg] at hc
    | some room => exact ⟨room, rfl⟩
  have hmr : h.members c.gameID = room := by simp [GameHub.members, hroom]
  rw [hmr] at hc ⊢
  by_cases hlen : (setDelete room c).length = 0
  · refine ⟨{ games := Function.update h.games c.gameID none,
              chans := Function.update h.chans c { h.chans c with closed := true } },
      by simp [GameHub.step, hroom, hc, close_open hopen, hlen], rfl, ?_⟩
    intro g
    by_cases hg : g = c.gameID
    · subst hg
      have : setDelete room c = [] := List.length_eq_zero.mp hlen
      simp [GameHub.members, this]
    · rw [members_update_other _ _ _ _ _ hg]; simp [hg]
  · refine ⟨{ games := Function.update h.games c.gameID (some (setDelete room c)),
              chans := Function.update h.chans c { h.chans c with closed := true } },
      by simp [GameHub.step, hroom, hc, close_open hopen, hlen], rfl, ?_⟩
    intro g
    by_cases hg : g = c.gameID
    · subst hg
      rw [members_update_same]; simp
    · rw [members_update_other _ _ _ _ _ hg]; simp [hg]

theorem gameStep_unregister_other (marshal : GameMove → Option Bytes) (h : GameHub)
    (c : GameClient) (hc : c ∉ h.members c.gameID) :
    h.step marshal (.unregister c) = .ok h := by
  cases hg : h.games c.gameID with
  | none => simp [GameHub.step, hg]
  | some room =>
    have : c ∉ room := by simpa [GameHub.members, hg] using hc
    simp [GameHub.step, hg, this]

/-- One operation keeps the game hub invariant and does not panic, when a
register is of a handle that was not registered before. -/
theorem gameInv_step (marshal : GameMove → Option Bytes) (R : List GameClient)
    (h : GameHub) (op : GameOp) (hinv : GameInv R h)
    (hfresh : ∀ c ∈ gameRegistered [op], c ∉ R) :
    ∃ h', h.step marshal op = .ok h' ∧ GameInv (R ++ gameRegistered [op]) h' := by
  obtain ⟨hnd, hreg, hopen⟩ := hinv
  cases op with
  | register c =>
    have hcR : c ∉ R := hfresh c (by simp [gameRegistered])
    have hcm : c ∉ h.members c.gameID := fun hm => hcR (hreg _ _ hm).2
    refine ⟨_, gameStep_register marshal h c, ?_, ?_, ?_⟩
    · intro g
      by_cases hg : g = c.gameID
      · subst hg
        rw [members_update_same]
        exact nodup_setAdd _ _ (hnd _)
      · rw [members_update_other _ _ _ _ _ hg]
        exact hnd g
    · intro g x
      by_cases hg : g = c.gameID
      · subst hg
        rw [members_update_same, mem_setAdd]
        rintro (rfl | hx)
        · simp [gameRegistered]
        · exact ⟨(hreg _ _ hx).1, List.mem_append_left _ (hreg _ _ hx).2⟩
      · rw [members_update_other _ _ _ _ _ hg]
        intro hx
        exact ⟨(hreg _ _ hx).1, List.mem_append_left _ (hreg _ _ hx).2⟩
    · intro x
      show (h.chans x).closed = false ↔ _
      rw [hopen x]
      by_cases hxc : x = c
      · subst hxc
        rw [members_update_same, mem_setAdd]
        simp [hcR]
      · have hmem : x ∈ GameHub.members
            { games := Function.update h.games c.gameID
                (some (setAdd (h.members c.gameID) c)), chans := h.chans } x.gameID
            ↔ x ∈ h.members x.gameID := by
          by_cases hg : x.gameID = c.gameID
          · rw [hg, members_update_same, mem_setAdd]
            simp [hxc]
          · rw [members_update_other _ _ _ _ _ hg]
        rw [hmem]
        simp [gameRegistered, hxc]
  | unregister c =>
    simp only [gameRegistered, List.append_nil]
    by_cases hc : c ∈ h.members c.gameID
    · have hco : (h.chans c).closed = false := (hopen c).mpr (Or.inl hc)
      obtain ⟨h', hstep, hch, hmem⟩ := gameStep_unregister_member marshal h c hc hco
      refine ⟨h', hstep, ?_, ?_, ?_⟩
      · intro g
        rw [hmem g]
        split
        · exact nodup_setDelete _ _ (hnd _)
        · exact hnd g
      · intro g x
        rw [hmem g]
        split
        · rename_i hg
          intro hx
          have := hreg _ _ ((mem_setDelete _ _ _).mp hx).1
          exact ⟨this.1.trans hg.symm, this.2⟩
        · exact hreg g x
      · intro x
        rw [hch, hmem x.gameID]
        by_cases hxc : x = c
        · subst hxc
          simp [mem_setDelete, (hreg _ _ hc).2]
        · have hup : Function.update h.chans c { h.chans c with closed := true } x
              = h.chans x := by simp [Function.update, hxc]
          rw [hup, hopen x]
          split
          · rename_i hg
            rw [mem_setDelete, ← hg]
            simp [hxc]
          · rfl
    · exact ⟨h, gameStep_unregister_other marshal h c hc, hnd, hreg, hopen⟩
  | broadcast move =>
    simp only [gameRegistered, List.append_nil]
    cases hroom : h.games move.GameID with
    | none => exact ⟨h, by simp [GameHub.step, hroom], hnd, hreg, hopen⟩
    | some room =>
      cases hdata : marshal move with
      | none => exact ⟨h, by simp [GameHub.step, hroom, hdata], hnd, hreg, hopen⟩
      | some data =>
        have hmr : h.members move.GameID = room := by simp [GameHub.members, hroom]
        have hro : ∀ c ∈ room, (h.chans c).closed = false := by
          intro c hc
          have hcg := (hreg _ _ (hmr ▸ hc)).1
          exact (hopen c).mpr (Or.inl (by rw [hcg, hmr]; exact hc))
        obtain ⟨chans', hfan, hin, hout⟩ :=
          fanOut_spec data room h.chans (hmr ▸ hnd move.GameID) hro
        refine ⟨{ games := Function.update h.games move.GameID
                    (some (room.filter (fun c => !(h.chans c).full))), chans := chans' },
          by simp [GameHub.step, hroom, hdata, hfan], ?_, ?_, ?_⟩
        · intro g
          by_cases hg : g = move.GameID
          · subst hg
            rw [members_update_same]
            exact (hmr ▸ hnd move.GameID).filter _
          · rw [members_update_other _ _ _ _ _ hg]
            exact hnd g
        · intro g x
          by_cases hg : g = move.GameID
          · subst hg
            rw [members_update_same]
            intro hx
            exact hreg _ _ (hmr ▸ (List.mem_filter.mp hx).1)
          · rw [members_update_other _ _ _ _ _ hg]
            exact hreg g x
        · intro x
          show (chans' x).closed = false ↔ _
          by_cases hx : x ∈ room
          · have hxg : x.gameID = move.GameID := (hreg _ _ (hmr ▸ hx)).1
            rw [hin x hx, hxg, members_update_same]
            have hcl := afterFanOut_closed data (h.chans x) (hro x hx)
            cases hf : (h.chans x).full with
            | false =>
              rw [hf] at hcl
              simp [hcl, List.mem_filter, hx, hf]
            | true =>
              rw [hf] at hcl
              simp [hcl, List.mem_filter, hf, (hreg _ _ (hmr ▸ hx)).2]
          · rw [hout x hx, hopen x]
            by_cases hg : x.gameID = move.GameID
            · rw [hg, members_update_same, hmr]
              simp [List.mem_filter, hx]
            · rw [members_update_other _ _ _ _ _ hg]
  | recv c =>
    simp only [gameRegistered, List.append_nil]
    refine ⟨_, rfl, hnd, hreg, ?_⟩
    intro x
    show (Function.update h.chans c (h.chans c).recv x).closed = false ↔ _
    have hm : GameHub.members
        { h with chans := Function.update h.chans c (h.chans c).recv } x.gameID
        = h.members x.gameID := rfl
    rw [hm, ← hopen x]
    by_cases hxc : x = c
    · subst hxc
      simp [Function.update, Chan.recv]
    · simp [Function.update, hxc]

/-- Every run of `GameHub.Run` from the empty hub in which no handle is
registered twice ends without a panic in a state that satisfies the invariant: in
particular the members of every room are distinct and have open queues. -/
theorem gameInv_run (marshal : GameMove → Option Bytes) (ops : List GameOp) :
    (gameRegistered ops).Nodup →
      ∃ h, GameHub.Run marshal NewGameHub ops = .ok h ∧ GameInv (gameRegistered ops) h := by
  induction ops using List.reverseRecOn with
  | nil =>
    intro _
    refine ⟨NewGameHub, rfl, ?_, ?_, ?_⟩
    · intro g; simp [GameHub.members, NewGameHub]
    · intro g c hc; simp [GameHub.members, NewGameHub] at hc
    · intro c; simp [NewGameHub, Chan.make, gameRegistered]
  | append_singleton ops op ih =>
    intro honce
    rw [gameRegistered_append] at honce ⊢
    obtain ⟨h, hrun, hinv⟩ := ih (List.nodup_append.mp honce).1
    obtain ⟨h', hstep, hinv'⟩ := gameInv_step marshal _ h op hinv
      (fun c hc hR => (List.nodup_append.mp honce).2.2 hR hc)
    refine ⟨h', ?_, hinv'⟩
    rw [gameRun_append, hrun]
    simp [GameHub.Run, hstep]


/-! ## Lobby hub: queues are open exactly for members -/

theorem lobbyRun_append (marshal : LobbyPresence → Option Bytes) :
    ∀ (ops1 ops2 : List LobbyOp) (h : LobbyHub),
      LobbyHub.Run marshal h (ops1 ++ ops2)
        = match LobbyHub.Run marshal h ops1 with
          | .error e => .error e
          | .ok h' => LobbyHub.Run marshal h' ops2
  | [], ops2, h => by simp [LobbyHub.Run]
  | op :: ops1, ops2, h => by
    simp only [List.cons_append, LobbyHub.Run]
    cases h.step marshal op with
    | error e => rfl
    | ok h' => exact lobbyRun_append marshal ops1 ops2 h'

theorem lobbyRegistered_append :
    ∀ (ops1 ops2 : List LobbyOp),
      lobbyRegistered (ops1 ++ ops2) = lobbyRegistered ops1 ++ lobbyRegistered ops2
  | [], _ => by simp [lobbyRegistered]
  | op :: ops1, ops2 => by
    cases op <;> simp [lobbyRegistered, lobbyRegistered_append ops1 ops2]

/-- The fan-out loop keeps the lobby invariant and does not panic. -/
theorem lobbyInv_fanOut (data : Bytes) (R : List LobbyClient) (h : LobbyHub)
    (hinv : LobbyInv R h) :
    ∃ kept chans, fanOut data h.clients h.chans = .ok (kept, chans) ∧
      LobbyInv R { clients := kept, chans := chans } ∧
      kept = h.clients.filter (fun c => !(h.chans c).full) ∧
      (∀ c ∈ h.clients, chans c = afterFanOut data (h.chans c)) ∧
      (∀ c, c ∉ h.clients → chans c = h.chans c) := by
  obtain ⟨hnd, hreg, hopen⟩ := hinv
  have hmo : ∀ c ∈ h.clients, (h.chans c).closed = false :=
    fun c hc => (hopen c).mpr (Or.inl hc)
  obtain ⟨chans, hfan, hin, hout⟩ := fanOut_spec data h.clients h.chans hnd hmo
  refine ⟨_, chans, hfan, ⟨hnd.filter _, ?_, ?_⟩, rfl, hin, hout⟩
  · intro c hc
    exact hreg c (List.mem_filter.mp hc).1
  · intro c
    show (chans c).closed = false ↔ _
    by_cases hc : c ∈ h.clients
    · rw [hin c hc]
      have hcl := afterFanOut_closed data (h.chans c) (hmo c hc)
      cases hf : (h.chans c).full with
      | false =>
        rw [hf] at hcl
        simp [hcl, List.mem_filter, hc, hf]
      | true =>
        rw [hf] at hcl
        simp [hcl, List.mem_filter, hf, hreg c hc]
    · rw [hout c hc, hopen c]
      simp [List.mem_filter, hc]

/-- The presence broadcast keeps the lobby invariant and does not panic. -/
theorem lobbyInv_broadcastPresence (marshal : LobbyPresence → Option Bytes)
    (R : List LobbyClient) (h : LobbyHub) (hinv : LobbyInv R h) :
    ∃ h', h.broadcastPresence marshal = .ok h' ∧ LobbyInv R h' := by
  unfold LobbyHub.broadcastPresence
  cases hm : marshal { Type_ := "presence", Users := h.currentUsers } with
  | none => exact ⟨h, by simp [hm], hinv⟩
  | some data =>
    obtain ⟨kept, chans, hfan, hinv', _⟩ := lobbyInv_fanOut data R h hinv
    exact ⟨_, by simp [hm, hfan], hinv'⟩

/-- One operation keeps the lobby invariant and does not panic, when a register
is of a handle that was not registered before. -/
theorem lobbyInv_step (marshal : LobbyPresence → Option Bytes) (R : List LobbyClient)
    (h : LobbyHub) (op : LobbyOp) (hinv : LobbyInv R h)
    (hfresh : ∀ c ∈ lobbyRegistered [op], c ∉ R) :
    ∃ h', h.step marshal op = .ok h' ∧ LobbyInv (R ++ lobbyRegistered [op]) h' := by
  obtain ⟨hnd, hreg, hopen⟩ := hinv
  cases op with
  | register c =>
    have hcR : c ∉ R := hfresh c (by simp [lobbyRegistered])
    simp only [LobbyHub.step, lobbyRegistered]
    apply lobbyInv_broadcastPresence
    refine ⟨nodup_setAdd _ _ hnd, ?_, ?_⟩
    · intro x hx
      rcases (mem_setAdd _ _ _).mp hx with rfl | hx
      · simp
      · exact List.mem_append_left _ (hreg x hx)
    · intro x
      show (h.chans x).closed = false ↔ _
      rw [hopen x, mem_setAdd]
      by_cases hxc : x = c
      · subst hxc
        simp [hcR]
      · simp [hxc]
  | unregister c =>
    simp only [LobbyHub.step, lobbyRegistered, List.append_nil]
    by_cases hc : c ∈ h.clients
    · have hco : (h.chans c).closed = false := (hopen c).mpr (Or.inl hc)
      simp only [hc, if_true, close_open hco]
      apply lobbyInv_broadcastPresence
      refine ⟨nodup_setDelete _ _ hnd, ?_, ?_⟩
      · intro x hx
        exact hreg x ((mem_setDelete _ _ _).mp hx).1
      · intro x
        show (Function.update h.chans c { h.chans c with closed := true } x).closed = false ↔ _
        rw [mem_setDelete]
        by_cases hxc : x = c
        · subst hxc
          simp [hreg x hc]
        · simp [Function.update, hxc, hopen x]
    · simp only [hc, if_false]
      exact ⟨h, rfl, hnd, hreg, hopen⟩
  | broadcast msg =>
    simp only [LobbyHub.step, lobbyRegistered, List.append_nil]
    obtain ⟨kept, chans, hfan, hinv', _⟩ := lobbyInv_fanOut msg R h ⟨hnd, hreg, hopen⟩
    exact ⟨_, by simp [hfan], hinv'⟩
  | recv c =>
    simp only [LobbyHub.step, lobbyRegistered, List.append_nil]
    refine ⟨_, rfl, hnd, hreg, ?_⟩
    intro x
    show (Function.update h.chans c (h.chans c).recv x).closed = false ↔ _
    rw [← hopen x]
    by_cases hxc : x = c
    · subst hxc
      simp [Function.update, Chan.recv]
    · simp [Function.update, hxc]

/-- Every run from the empty lobby hub in which no handle is registered twice
ends without a panic in a state that satisfies the invariant. -/
theorem lobbyInv_run (marshal : LobbyPresence → Option Bytes) (ops : List LobbyOp) :
    (lobbyRegistered ops).Nodup →
      ∃ h, LobbyHub.Run marshal NewLobbyHub ops = .ok h ∧ LobbyInv (lobbyRegistered ops) h := by
  induction ops using List.reverseRecOn with
  | nil =>
    intro _
    refine ⟨NewLobbyHub, rfl, ?_, ?_, ?_⟩
    · simp [NewLobbyHub]
    · intro c hc; simp [NewLobbyHub] at hc
    · intro c; simp [NewLobbyHub, Chan.make, lobbyRegistered]
  | append_singleton ops op ih =>
    intro honce
    rw [lobbyRegistered_append] at honce ⊢
    obtain ⟨h, hrun, hinv⟩ := ih (List.nodup_append.mp honce).1
    obtain ⟨h', hstep, hinv'⟩ := lobbyInv_step marshal _ h op hinv
      (fun c hc hR => (List.nodup_append.mp honce).2.2 hR hc)
    refine ⟨h', ?_, hinv'⟩
    rw [lobbyRun_append, hrun]
    simp [LobbyHub.Run, hstep]

/-- C3. Every sequence of register, unregister and broadcast operations handled
by `LobbyHub.Run` from the empty hub (interleaved with any receives by the
writers), with no handle registered twice, runs without a panic: no queue is
closed twice and nothing is sent on a closed queue. In the state it reaches the
members are distinct, the queue of a handle that was registered is open exactly
when the handle is a member, and the unregister of a handle that is no longer a
member (one removed by force when its queue was full, for instance) leaves the hub
as it is and closes nothing. -/
theorem lobbyHub_queue_open_iff_member (marshal : LobbyPresence → Option Bytes)
    (ops : List LobbyOp) (honce : (lobbyRegistered ops).Nodup) :
    ∃ h, LobbyHub.Run marshal NewLobbyHub ops = .ok h ∧
      h.clients.Nodup ∧
      (∀ c ∈ lobbyRegistered ops, ((h.chans c).closed = false ↔ c ∈ h.clients)) ∧
      (∀ c, c ∉ lobbyRegistered ops → (h.chans c).closed = false ∧ c ∉ h.clients) ∧
      (∀ c, c ∉ h.clients → h.step marshal (.unregister c) = .ok h) := by
  obtain ⟨h, hrun, hnd, hreg, hopen⟩ := lobbyInv_run marshal ops honce
  refine ⟨h, hrun, hnd, ?_, ?_, ?_⟩
  · intro c hc
    rw [hopen c]
    simp [hc]
  · intro c hc
    exact ⟨(hopen c).mpr (Or.inr hc), fun hm => hc (hreg c hm)⟩
  · intro c hc
    simp [LobbyHub.step, hc]


theorem lobbyHub_queue_open_iff_member_witness :
    ∃ h, LobbyHub.Run samplePresenceMarshal NewLobbyHub
        (slowAnnOps ++ [.recv lobbyBob, .unregister lobbyAnn]) = .ok h ∧
      h.clients.Nodup ∧
      ((h.chans lobbyAnn).closed = false ↔ lobbyAnn ∈ h.clients) ∧
      ((h.chans lobbyBob).closed = false ↔ lobbyBob ∈ h.clients) :=
  have hw := lobbyHub_queue_open_iff_member samplePresenceMarshal
    (slowAnnOps ++ [.recv lobbyBob, .unregister lobbyAnn]) (by decide)
  hw.elim fun h hh =>
    ⟨h, hh.1, hh.2.1, hh.2.2.1 lobbyAnn (by decide), hh.2.2.1 lobbyBob (by decide)⟩

/-! ## Game client: move frames -/

/-- C4. For a decoded frame of type `move` with non-empty edge `e` and side `s` in
`p1`, `p2`, read on the connection of handle `c`, the read loop of
`GameClient.readPump` first calls `saveMove` for the record
`(c.gameID, c.userID, e, s)` and then sends to the hub the move
`{type move, gameId c.gameID, edgeId e, playerSlot s}` with every other field
zero, and goes on with the next read. Nothing else of the frame occurs in the
effects. The insert adds the record at the end of table `moves` when it succeeds
and leaves the database as it is when it fails; the broadcast is issued in both
cases. -/
theorem readPump_move_effects (c : GameClient) (db : Option Database) (inp : PumpInput)
    (rest : List PumpInput) (incoming : GameMove) (e s : String)
    (hread : inp.read = .frame incoming)
    (htype : incoming.Type_ = "move")
    (hedge : incoming.EdgeID = e) (hne : e ≠ "")
    (hslot : incoming.PlayerSlot = s) (hside : s = "p1" ∨ s = "p2") :
    c.readPump db (inp :: rest)
      = ((c.readPump (saveMove db inp.execErr c.gameID c.userID e s).1 rest).1,
         [Effect.saveMove c.gameID c.userID e s,
          Effect.broadcast { Type_ := "move", GameID := c.gameID, EdgeID := e, PlayerSlot := s,
                             Text := "", UserID := 0, DisplayName := "", SentAt := 0 }]
           ++ (c.readPump (saveMove db inp.execErr c.gameID c.userID e s).1 rest).2) ∧
    (∀ d, db = some d → inp.execErr = false →
      (saveMove db inp.execErr c.gameID c.userID e s).1
        = some { d with moves := d.moves ++
            [{ game_id := c.gameID, user_id := c.userID, edge_id := e, player_slot := s }] }) ∧
    (inp.execErr = true → (saveMove db inp.execErr c.gameID c.userID e s).1 = db) := by
  refine ⟨?_, ?_, ?_⟩
  · have hs : ¬ (s ≠ "p1" ∧ s ≠ "p2") := by
      rcases hside with h | h <;> simp [h]
    subst hedge hslot
    simp only [GameClient.readPump, hread, GameClient.dispatch, htype, if_true, hne, if_false, hs]
  · intro d hd herr
    simp [saveMove, hd, herr]
  · intro herr
    cases db <;> simp [saveMove, herr]

theorem readPump_move_effects_witness :
    (client7.readPump (some emptyDatabase) [readA1]).2
        = [Effect.saveMove "S1" 7 "a1" "p1", Effect.broadcast moveA1] ∧
      (client7.readPump (some emptyDatabase) [readA1]).1
        = some { moves := [{ game_id := "S1", user_id := 7, edge_id := "a1", player_slot := "p1" }],
                 chat_messages := [] } := by
  have hw := readPump_move_effects client7 (some emptyDatabase) readA1 [] inboundA1 "a1" "p1"
    rfl rfl rfl (by decide) rfl (Or.inl rfl)
  refine ⟨?_, ?_⟩
  · rw [hw.1]; rfl
  · rw [hw.1]
    exact hw.2.1 emptyDatabase rfl rfl

/-- C5. A decoded frame of type `move` whose edge is empty, or whose side is
neither `p1` nor `p2`, has no effect in `GameClient.readPump`: no call of
`saveMove`, no change of the database, nothing sent to the hub, no unregister, and
the loop goes on with the next read exactly as if the frame had not come. -/
theorem readPump_malformed_move_dropped (c : GameClient) (db : Option Database)
    (inp : PumpInput) (rest : List PumpInput) (incoming : GameMove)
    (hread : inp.read = .frame incoming)
    (htype : incoming.Type_ = "move")
    (hbad : incoming.EdgeID = "" ∨ (incoming.PlayerSlot ≠ "p1" ∧ incoming.PlayerSlot ≠ "p2")) :
    c.dispatch db inp incoming = (db, []) ∧
      c.readPump db (inp :: rest) = c.readPump db rest := by
  have hd : c.dispatch db inp incoming = (db, []) := by
    rcases hbad with h | h
    · simp [GameClient.dispatch, htype, h]
    · by_cases he : incoming.EdgeID = ""
      · simp [GameClient.dispatch, htype, he]
      · simp [GameClient.dispatch, htype, he, h.1, h.2]
  refine ⟨hd, ?_⟩
  simp only [GameClient.readPump, hread, hd, List.nil_append]

theorem readPump_malformed_move_dropped_witness :
    client7.dispatch (some emptyDatabase) readNoEdge inboundNoEdge = (some emptyDatabase, []) ∧
      client7.readPump (some emptyDatabase) [readNoEdge, readA1]
        = client7.readPump (some emptyDatabase) [readA1] :=
  readPump_malformed_move_dropped client7 (some emptyDatabase) readNoEdge [readA1] inboundNoEdge
    rfl rfl (Or.inl rfl)


/-! ## Join and replay -/

theorem replayLoop_all_written (marshal : GameMove → Option Bytes) (writeErr : Nat → Bool)
    (enc : GameMove → Bytes) (hw : ∀ n, writeErr n = false) :
    ∀ (fs : List GameMove) (n : Nat), (∀ f ∈ fs, marshal f = some (enc f)) →
      replayLoop marshal writeErr fs n
        = (fs.map (fun f => JoinEffect.write (enc f) false), n + fs.length)
  | [], n, _ => by simp [replayLoop]
  | f :: rest, n, hm => by
    have ih := replayLoop_all_written marshal writeErr enc hw rest (n + 1)
      (fun g hg => hm g (List.mem_cons_of_mem _ hg))
    simp only [replayLoop, hm f (List.mem_cons_self _ _), hw n, ih]
    simp
    omega

/-- C6. A join to the room of session `g` whose two queries succeed, giving the
stored moves `moves` and the chat frames `chats`, and whose frames all serialize
and are all written without error, has exactly these effects, in this order: one
write for each stored move, in log order, of the frame
`{type move, gameId g, edgeId, playerSlot}`; then one write for each chat frame,
in log order; then one register of the new handle, followed by the start of its
two pumps. So `moves.length + chats.length` frames are written, each record
once, and the only register comes after the last write. -/
theorem handleGameWS_replays_then_registers (marshal : GameMove → Option Bytes)
    (enc : GameMove → Bytes) (db : Option Database) (env : JoinEnv) (userID : Int)
    (g : String) (moves : List StoredMove) (chats : List GameMove)
    (hmoves : loadMoves db env.movesQueryErr g = some moves)
    (hchats : loadGameChat db env.chatQueryErr g = some chats)
    (hwrite : ∀ n, env.writeErr n = false)
    (hencm : ∀ m ∈ moves, marshal (replayFrame g m) = some (enc (replayFrame g m)))
    (hencc : ∀ ch ∈ chats, marshal ch = some (enc ch)) :
    handleGameWS marshal db env userID g
      = moves.map (fun m => JoinEffect.write
            (enc { Type_ := "move", GameID := g, EdgeID := m.EdgeID, PlayerSlot := m.PlayerSlot,
                   Text := "", UserID := 0, DisplayName := "", SentAt := 0 }) false)
        ++ chats.map (fun ch => JoinEffect.write (enc ch) false)
        ++ [JoinEffect.register { ptr := env.ptr, userID := userID, gameID := g },
            JoinEffect.goWritePump { ptr := env.ptr, userID := userID, gameID := g },
            JoinEffect.goReadPump { ptr := env.ptr, userID := userID, gameID := g }] := by
  have h1 := replayLoop_all_written marshal env.writeErr enc hwrite
    (moves.map (replayFrame g)) 0 (by
      intro f hf
      obtain ⟨m, hm, rfl⟩ := List.mem_map.mp hf
      exact hencm m hm)
  have h2 := fun n => replayLoop_all_written marshal env.writeErr enc hwrite chats n hencc
  simp only [handleGameWS, hmoves, hchats, h1, h2, List.map_map]
  rfl

theorem handleGameWS_replays_then_registers_witness :
    handleGameWS sampleMarshal (some sampleDatabase) calmJoin 9 "S1"
      = [JoinEffect.write "move:S1:a1:p1:" false,
         JoinEffect.write "move:S1:b2:p2:" false,
         JoinEffect.write "chat:S1:::gl" false,
         JoinEffect.register { ptr := 7, userID := 9, gameID := "S1" },
         JoinEffect.goWritePump { ptr := 7, userID := 9, gameID := "S1" },
         JoinEffect.goReadPump { ptr := 7, userID := 9, gameID := "S1" }] := by
  have hw := handleGameWS_replays_then_registers sampleMarshal
    (fun f => String.join [f.Type_, ":", f.GameID, ":", f.EdgeID, ":", f.PlayerSlot, ":", f.Text])
    (some sampleDatabase) calmJoin 9 "S1"
    [{ EdgeID := "a1", PlayerSlot := "p1" }, { EdgeID := "b2", PlayerSlot := "p2" }]
    [{ Type_ := "chat", GameID := "S1", UserID := 9, Text := "gl", SentAt := 3, EdgeID := "",
       PlayerSlot := "", DisplayName := "" }]
    (by decide) (by decide) (fun _ => rfl) (fun _ _ => rfl) (fun _ _ => rfl)
  rw [hw]
  decide

/-! ## Round trip of moves -/

theorem loadMoves_append (d : Database) (g : String) (row : MoveRow) :
    loadMoves (some { d with moves := d.moves ++ [row] }) false g
      = (loadMoves (some d) false g).map (fun old =>
          old ++ (if row.game_id = g
            then [{ EdgeID := row.edge_id, PlayerSlot := row.player_slot }] else [])) := by
  by_cases h : row.game_id = g <;> simp [loadMoves, List.filter_append, h]

theorem loadMoves_stored (d : Database) (g : String) :
    loadMoves (some d) false g = some (storedMoves g d) := by
  simp [loadMoves, storedMoves]

theorem pendingAll_split :
    ∀ (pumps : List Pump) (i : Nat) (p : Pump), pumps[i]? = some p →
      ∃ A B, pendingAll pumps = A ++ p.pending ++ B ∧
        ∀ p', pendingAll (pumps.set i p') = A ++ p'.pending ++ B
  | [], i, p, h => by simp at h
  | q :: qs, 0, p, h => by
    have hq : q = p := by simpa using h
    subst hq
    exact ⟨[], pendingAll qs, by simp [pendingAll], fun p' => by simp [pendingAll]⟩
  | q :: qs, i + 1, p, h => by
    have h' : qs[i]? = some p := by simpa using h
    obtain ⟨A, B, h1, h2⟩ := pendingAll_split qs i p h'
    exact ⟨q.pending ++ A, B, by simp [pendingAll, h1], fun p' => by simp [pendingAll, h2 p']⟩

theorem pendingAll_eq_nil :
    ∀ (pumps : List Pump), (∀ p ∈ pumps, p.pending = []) → pendingAll pumps = []
  | [], _ => rfl
  | q :: qs, h => by
    simp [pendingAll, h q (List.mem_cons_self _ _),
      pendingAll_eq_nil qs (fun p hp => h p (List.mem_cons_of_mem _ hp))]

theorem runPumps_skip (i : Nat) (sched : List Nat) (db : Option Database) (pumps : List Pump)
    (h : pumps[i]? = none) : runPumps (i :: sched) db pumps = runPumps sched db pumps := by
  simp [runPumps, h]

theorem runPumps_step (i : Nat) (sched : List Nat) (db : Option Database) (pumps : List Pump)
    (p : Pump) (h : pumps[i]? = some p) :
    runPumps (i :: sched) db pumps
      = ((runPumps sched (pumpStep db p).1 (pumps.set i (pumpStep db p).2.2)).1,
         (pumpStep db p).2.1
           ++ (runPumps sched (pumpStep db p).1 (pumps.set i (pumpStep db p).2.2)).2.1,
         (runPumps sched (pumpStep db p).1 (pumps.set i (pumpStep db p).2.2)).2.2) := by
  simp [runPumps, h]

theorem undisturbed_skip (i : Nat) (sched : List Nat) (db : Option Database)
    (pumps : List Pump) (h : pumps[i]? = none) :
    undisturbed (i :: sched) db pumps = undisturbed sched db pumps := by
  simp [undisturbed, h]

theorem undisturbed_step (i : Nat) (sched : List Nat) (db : Option Database)
    (pumps : List Pump) (p : Pump) (h : pumps[i]? = some p) :
    undisturbed (i :: sched) db pumps
      = ((!p.pending.isEmpty || pumps.all (fun q => q.pending.isEmpty))
          && undisturbed sched (pumpStep db p).1 (pumps.set i (pumpStep db p).2.2)) := by
  simp [undisturbed, h]

/-- One step of a loop that reads accepted moves of session `g`: either it sends
its pending frame and leaves the database alone, or it has none pending, sends
nothing, and appends at most one stored move whose frame becomes pending. -/
theorem pumpStep_move (g : String) (d : Database) (p : Pump) (hp : MovePump g p) :
    (∃ m rest p', p.pending = m :: rest ∧ pumpStep (some d) p = (some d, [m], p') ∧
        p'.pending = rest ∧ MovePump g p') ∨
    (p.pending = [] ∧ ∃ d' add p', pumpStep (some d) p = (some d', [], p') ∧
        storedMoves g d' = storedMoves g d ++ add ∧
        p'.pending = add.map (replayFrame g) ∧ add.length ≤ 1 ∧ MovePump g p') := by
  cases hpend : p.pending with
  | cons m rest =>
    left
    exact ⟨m, rest, { p with pending := rest }, rfl, by simp [pumpStep, hpend], rfl,
      hp.1, hp.2⟩
  | nil =>
    right
    refine ⟨rfl, ?_⟩
    cases hreads : p.reads with
    | nil =>
      exact ⟨d, [], p, by simp [pumpStep, hpend, hreads], by simp, by simp [hpend], by simp, hp⟩
    | cons inp reads =>
      have hin : moveRead inp = true := hp.2 inp (by rw [hreads]; exact List.mem_cons_self _ _)
      have hrest : ∀ x ∈ reads, moveRead x = true :=
        fun x hx => hp.2 x (by rw [hreads]; exact List.mem_cons_of_mem _ hx)
      cases hr : inp.read with
      | readError => simp [moveRead, hr] at hin
      | badJSON => simp [moveRead, hr] at hin
      | frame incoming =>
        simp only [moveRead, hr, acceptedMove, Bool.and_eq_true, Bool.or_eq_true,
          decide_eq_true_eq, Bool.not_eq_true'] at hin
        obtain ⟨⟨⟨htype, hedge⟩, hside⟩, herr⟩ := hin
        have hs : ¬ (incoming.PlayerSlot ≠ "p1" ∧ incoming.PlayerSlot ≠ "p2") := by
          rcases hside with h | h <;> simp [h]
        have hdisp : p.client.dispatch (some d) inp incoming
            = (some { d with moves := d.moves ++ [MoveRow.mk g p.client.userID incoming.EdgeID
                  incoming.PlayerSlot] },
               [Effect.saveMove g p.client.userID incoming.EdgeID incoming.PlayerSlot,
                Effect.broadcast (replayFrame g
                  { EdgeID := incoming.EdgeID, PlayerSlot := incoming.PlayerSlot })]) := by
          simp [GameClient.dispatch, htype, hedge, hs, saveMove, herr, hp.1, replayFrame]
        refine ⟨{ d with moves := d.moves ++ [MoveRow.mk g p.client.userID incoming.EdgeID
                    incoming.PlayerSlot] },
          [{ EdgeID := incoming.EdgeID, PlayerSlot := incoming.PlayerSlot }],
          { client := p.client,
            pending := [replayFrame g
              { EdgeID := incoming.EdgeID, PlayerSlot := incoming.PlayerSlot }],
            reads := reads }, ?_, ?_, rfl, by simp, hp.1, hrest⟩
        · simp [pumpStep, hpend, hreads, hr, hdisp, broadcastsOf]
        · simp [storedMoves, List.filter_append]

/-- Conservation of frames along any schedule of loops that read accepted moves
of session `g`: the stored moves only grow at the end; the frames of the new
stored moves together with the frames pending at the start are, up to order,
the frames the hub received together with the frames still pending; and the
order agrees too when the schedule is undisturbed and at most one frame is
pending at the start. -/
theorem runPumps_spec (g : String) :
    ∀ (sched : List Nat) (d : Database) (pumps : List Pump),
      (∀ p ∈ pumps, MovePump g p) →
      ∃ d' new,
        (runPumps sched (some d) pumps).1 = some d' ∧
        storedMoves g d' = storedMoves g d ++ new ∧
        (new.map (replayFrame g) ++ pendingAll pumps).Perm
          ((runPumps sched (some d) pumps).2.1
            ++ pendingAll (runPumps sched (some d) pumps).2.2) ∧
        (undisturbed sched (some d) pumps = true → (pendingAll pumps).length ≤ 1 →
          pendingAll pumps ++ new.map (replayFrame g)
            = (runPumps sched (some d) pumps).2.1
              ++ pendingAll (runPumps sched (some d) pumps).2.2)
  | [], d, pumps, _ => by
    refine ⟨d, [], rfl, by simp, ?_, ?_⟩
    · simp [runPumps]
    · intro _ _
      simp [runPumps]
  | i :: sched, d, pumps, hp => by
    cases hi : pumps[i]? with
    | none =>
      obtain ⟨d', new, h1, h2, h3, h4⟩ := runPumps_spec g sched d pumps hp
      rw [runPumps_skip _ _ _ _ hi, undisturbed_skip _ _ _ _ hi]
      exact ⟨d', new, h1, h2, h3, h4⟩
    | some p =>
      have hpm : MovePump g p := hp p (List.getElem?_mem hi)
      obtain ⟨A, B, hsplit, hset⟩ := pendingAll_split pumps i p hi
      rw [runPumps_step _ _ _ _ _ hi, undisturbed_step _ _ _ _ _ hi]
      rcases pumpStep_move g d p hpm with
        ⟨m, rest, p', hpend, hstep, hp'pend, hp'⟩ | ⟨hpend, d1, add, p', hstep, hstored, hp'pend, hadd, hp'⟩
      · have hp'' : ∀ q ∈ pumps.set i p', MovePump g q := by
          intro q hq
          rcases List.mem_or_eq_of_mem_set hq with hq | rfl
          · exact hp q hq
          · exact hp'
        obtain ⟨d', new, h1, h2, h3, h4⟩ := runPumps_spec g sched d (pumps.set i p') hp''
        rw [hstep]
        simp only
        rw [hset p', hp'pend] at h3 h4
        rw [hsplit, hpend]
        refine ⟨d', new, h1, h2, ?_, ?_⟩
        · rw [List.perm_iff_count] at h3 ⊢
          intro a
          have h3a := h3 a
          have hm : m :: rest = [m] ++ rest := rfl
          rw [hm]
          simp only [List.count_append] at h3a ⊢
          omega
        · intro hund hlen
          simp only [Bool.and_eq_true] at hund
          have hA : A = [] := by
            apply List.length_eq_zero.mp
            simp only [List.length_append, List.length_cons] at hlen
            omega
          have hB : B = [] := by
            apply List.length_eq_zero.mp
            simp only [List.length_append, List.length_cons] at hlen
            omega
          have hrest : rest = [] := by
            apply List.length_eq_zero.mp
            simp only [List.length_append, List.length_cons] at hlen
            omega
          subst hA hB hrest
          have h4' := h4 hund.2 (by simp)
          simp only [List.nil_append, List.append_nil] at h4' ⊢
          rw [List.cons_append, h4']
          simp
      · have hp'' : ∀ q ∈ pumps.set i p', MovePump g q := by
          intro q hq
          rcases List.mem_or_eq_of_mem_set hq with hq | rfl
          · exact hp q hq
          · exact hp'
        obtain ⟨d', new, h1, h2, h3, h4⟩ := runPumps_spec g sched d1 (pumps.set i p') hp''
        rw [hstep]
        simp only
        rw [hset p', hp'pend] at h3 h4
        rw [hsplit, hpend]
        refine ⟨d', add ++ new, h1, by rw [h2, hstored, List.append_assoc], ?_, ?_⟩
        · rw [List.perm_iff_count] at h3 ⊢
          intro a
          have h3a := h3 a
          simp only [List.count_append, List.map_append, List.count_nil] at h3a ⊢
          omega
        · intro hund hlen
          simp only [Bool.and_eq_true, Bool.or_eq_true] at hund
          have hall : pendingAll pumps = [] := by
            apply pendingAll_eq_nil
            rcases hund.1 with h | h
            · simp [hpend] at h
            · intro q hq
              have := (List.all_eq_true.mp h) q hq
              simpa using this
          rw [hsplit, hpend] at hall
          have hA : A = [] := by
            have := congrArg List.length hall
            apply List.length_eq_zero.mp
            simp only [List.length_append, List.length_nil] at this
            omega
          have hB : B = [] := by
            have := congrArg List.length hall
            apply List.length_eq_zero.mp
            simp only [List.length_append, List.length_nil] at this
            omega
          subst hA hB
          have h4' := h4 hund.2 (by simpa using hadd)
          simp only [List.nil_append, List.append_nil, List.map_append] at h4' ⊢
          exact h4'

theorem undisturbed_single :
    ∀ (sched : List Nat) (db : Option Database) (p : Pump), undisturbed sched db [p] = true
  | [], _, _ => rfl
  | 0 :: sched, db, p => by
    rw [undisturbed_step 0 sched db [p] p rfl]
    have ih := undisturbed_single sched (pumpStep db p).1 (pumpStep db p).2.2
    cases hpe : p.pending.isEmpty <;> simp [hpe, ih]
  | (i + 1) :: sched, db, p => by
    rw [undisturbed_skip (i + 1) sched db [p] (by simp)]
    exact undisturbed_single sched db p

/-- C7, counterexample. The read loops of `client7` and `client9` of session `S1`
each accept one move. Loop 0 inserts `a1`, loop 1 inserts `b2` and sends it to
the hub, then loop 0 sends `a1`: every insert succeeds and each loop keeps its
program order, yet a later join replays `a1`, `b2` while the hub broadcast `b2`,
`a1`. The replayed frames are not in the order of the live frames. -/
theorem moves_interleaved_replay_differs :
    (runPumps racingSchedule (some emptyDatabase) racingPumps).2.1 = [moveB2, moveA1] ∧
      (loadMoves (runPumps racingSchedule (some emptyDatabase) racingPumps).1 false "S1").map
          (List.map (replayFrame "S1"))
        = some [moveA1, moveB2] ∧
      (runPumps racingSchedule (some emptyDatabase) racingPumps).2.2
        = [{ client := client7, pending := [], reads := [] },
           { client := client9, pending := [], reads := [] }] ∧
      [moveA1, moveB2] ≠ [moveB2, moveA1] := by
  decide

/-- C7, amended. Let the read loops of connections of session `g` run side by
side under any schedule, each reading only accepted move frames whose inserts
succeed, from a database `d`, until every frame built has been sent to the hub.
Then the frames that a later join builds from `loadMoves` for its replay are the
frames it would have built from `d` followed by the frames of the new moves, and
these are the frames the hub received live, one for one, up to their order. They
are in the same order when no loop takes a read while a frame of another loop
waits to be sent, and so whenever the moves come from a single connection. -/
theorem moves_replay_permutes_live (g : String) (sched : List Nat) (d : Database)
    (pumps : List Pump)
    (hstart : ∀ p ∈ pumps, p.pending = [])
    (hreads : ∀ p ∈ pumps, MovePump g p)
    (hdone : ∀ q ∈ (runPumps sched (some d) pumps).2.2, q.pending = []) :
    ∃ d' new,
      (runPumps sched (some d) pumps).1 = some d' ∧
      loadMoves (some d) false g = some (storedMoves g d) ∧
      loadMoves (some d') false g = some (storedMoves g d ++ new) ∧
      (storedMoves g d ++ new).map (replayFrame g)
        = (storedMoves g d).map (replayFrame g) ++ new.map (replayFrame g) ∧
      (new.map (replayFrame g)).Perm (runPumps sched (some d) pumps).2.1 ∧
      (undisturbed sched (some d) pumps = true ∨ pumps.length ≤ 1 →
        new.map (replayFrame g) = (runPumps sched (some d) pumps).2.1) := by
  obtain ⟨d', new, h1, h2, h3, h4⟩ := runPumps_spec g sched d pumps hreads
  have hs : pendingAll pumps = [] := pendingAll_eq_nil pumps hstart
  have he : pendingAll (runPumps sched (some d) pumps).2.2 = [] := pendingAll_eq_nil _ hdone
  rw [hs, he] at h3 h4
  simp only [List.append_nil, List.nil_append] at h3 h4
  refine ⟨d', new, h1, loadMoves_stored d g, by rw [loadMoves_stored, h2], List.map_append _ _ _,
    h3, ?_⟩
  intro hcase
  have hund : undisturbed sched (some d) pumps = true := by
    rcases hcase with h | h
    · exact h
    · match pumps, h with
      | [], _ =>
        clear h1 h2 h3 h4 he hs hdone hreads hstart
        induction sched with
        | nil => rfl
        | cons i sched ih => rw [undisturbed_skip i sched _ [] (by simp)]; exact ih
      | [p], _ => exact undisturbed_single sched _ p
      | _ :: _ :: _, h => simp at h
  exact h4 hund (by simp)

theorem moves_replay_permutes_live_witness :
    (((loadMoves (runPumps racingSchedule (some emptyDatabase) racingPumps).1 false "S1").getD
        []).map (replayFrame "S1")).Perm
      (runPumps racingSchedule (some emptyDatabase) racingPumps).2.1 := by
  obtain ⟨d', new, hrun, _, hafter, _, hperm, _⟩ :=
    moves_replay_permutes_live "S1" racingSchedule emptyDatabase racingPumps
      (by decide) (by
        intro p hp
        have hcases : p = { client := client7, pending := [], reads := [readA1] } ∨
            p = { client := client9, pending := [], reads := [readB2] } := by
          simpa [racingPumps] using hp
        rcases hcases with rfl | rfl
        · exact ⟨rfl, by decide⟩
        · exact ⟨rfl, by decide⟩)
      (by decide)
  rw [hrun, hafter]
  have h0 : storedMoves "S1" emptyDatabase = [] := by decide
  rw [h0]
  simpa using hperm

/-! ## Chat frames: live and replayed -/

/-- C8, counterexample. The chat frame that `client7` broadcasts live for the text
`hi` carries the key `displayName`, which the frame replayed from the stored row does not carry:
the two frames do not have the same shape, and the live one does not carry
exactly `type`, `gameId`, `userId`, `text`, `sentAt`. -/
theorem chat_live_frame_has_displayName :
    client7.dispatch (some emptyDatabase) readHi inboundHi
        = (some { moves := [],
                  chat_messages := [{ game_id := "S1", user_id := 7, display_name := "Player",
                                      message := "hi", room_type := "game", created_at := 102 }] },
           [Effect.saveGameChat "S1" 7 "Player" "hi", Effect.broadcast liveHi]) ∧
      loadGameChat (client7.dispatch (some emptyDatabase) readHi inboundHi).1 false "S1"
        = some [replayedHi] ∧
      liveHi.jsonKeys = ["type", "gameId", "text", "userId", "displayName", "sentAt"] ∧
      replayedHi.jsonKeys = ["type", "gameId", "text", "userId", "sentAt"] ∧
      liveHi.jsonKeys ≠ replayedHi.jsonKeys := by
  decide


/-- C8, amended. For an accepted chat frame (text not blank once trimmed) read on
the connection of a handle `c` and stored without error, the frame sent live to
the hub carries the keys `type`, `gameId`, `text`, `userId`, `displayName` and
`sentAt`; the frame that `loadGameChat` later gives back for the stored row
carries `type`, `gameId`, `text`, `userId` and `sentAt`, and no `displayName`
(`userId` is left out of both when the identity is 0). The two frames have the
same `gameId`, `userId` and `text`. -/
theorem chat_live_and_replayed_frames (c : GameClient) (d : Database) (inp : PumpInput)
    (incoming : GameMove)
    (htype : incoming.Type_ = "chat")
    (htext : TrimSpace incoming.Text ≠ "")
    (herr : inp.execErr = false) :
    ∃ live replayed row chats,
      c.dispatch (some d) inp incoming
        = (some { d with chat_messages := d.chat_messages ++ [row] },
           [Effect.saveGameChat c.gameID c.userID row.display_name row.message,
            Effect.broadcast live]) ∧
      loadGameChat (some { d with chat_messages := d.chat_messages ++ [row] }) false c.gameID
        = some chats ∧
      replayed ∈ chats ∧
      replayed = { Type_ := "chat", GameID := c.gameID, UserID := row.user_id, Text := row.message,
                   SentAt := row.created_at, EdgeID := "", PlayerSlot := "", DisplayName := "" } ∧
      live.jsonKeys = ["type", "gameId", "text"] ++ (if c.userID = 0 then [] else ["userId"])
        ++ ["displayName", "sentAt"] ∧
      replayed.jsonKeys = ["type", "gameId", "text"] ++ (if c.userID = 0 then [] else ["userId"])
        ++ ["sentAt"] ∧
      replayed.GameID = live.GameID ∧ replayed.UserID = live.UserID ∧
      replayed.Text = live.Text ∧ live.GameID = c.gameID ∧ live.UserID = c.userID ∧
      live.Text = TrimSpace incoming.Text := by
  have hname : (if incoming.DisplayName = "" then "Player" else incoming.DisplayName) ≠ "" := by
    split
    · decide
    · assumption
  refine ⟨{ Type_ := "chat", GameID := c.gameID, Text := TrimSpace incoming.Text,
            UserID := c.userID,
            DisplayName := if incoming.DisplayName = "" then "Player" else incoming.DisplayName,
            SentAt := inp.now, EdgeID := "", PlayerSlot := "" },
    { Type_ := "chat", GameID := c.gameID, UserID := c.userID, Text := TrimSpace incoming.Text,
      SentAt := inp.createdAt, EdgeID := "", PlayerSlot := "", DisplayName := "" },
    { game_id := c.gameID, user_id := c.userID,
      display_name := if incoming.DisplayName = "" then "Player" else incoming.DisplayName,
      message := TrimSpace incoming.Text, room_type := "game", created_at := inp.createdAt },
    _, ?_, rfl, ?_, rfl, ?_, ?_, rfl, rfl, rfl, rfl, rfl, rfl⟩
  · simp [GameClient.dispatch, htype, htext, saveGameChat, herr]
  · simp only [if_false, Bool.false_eq_true]
    apply List.mem_map.mpr
    refine ⟨{ game_id := c.gameID, user_id := c.userID,
              display_name := if incoming.DisplayName = "" then "Player"
                else incoming.DisplayName,
              message := TrimSpace incoming.Text, room_type := "game",
              created_at := inp.createdAt }, ?_, rfl⟩
    rw [(List.perm_insertionSort _ _).mem_iff, List.mem_filter]
    refine ⟨by simp, by simp⟩
  · simp [GameMove.jsonKeys, htext, hname]
  · simp [GameMove.jsonKeys, htext]

theorem chat_live_and_replayed_frames_witness :
    ∃ live replayed : GameMove,
      (client7.dispatch (some emptyDatabase) readHi inboundHi).2
        = [Effect.saveGameChat "S1" 7 "Player" "hi", Effect.broadcast live] ∧
      live.jsonKeys = ["type", "gameId", "text", "userId", "displayName", "sentAt"] ∧
      replayed.jsonKeys = ["type", "gameId", "text", "userId", "sentAt"] ∧
      replayed.Text = live.Text := by
  obtain ⟨live, replayed, row, chats, hd, _, _, _, hlive, hrep, _, _, htxt, _, _, _⟩ :=
    chat_live_and_replayed_frames client7 emptyDatabase readHi inboundHi rfl (by decide) rfl
  refine ⟨live, replayed, ?_, hlive.trans (by decide), hrep.trans (by decide), htxt⟩
  rw [hd]
  have hfst := congrArg Prod.fst hd
  have hrow : (client7.dispatch (some emptyDatabase) readHi inboundHi).1
      = some { moves := [],
               chat_messages := [{ game_id := "S1", user_id := 7, display_name := "Player",
                                   message := "hi", room_type := "game",
                                   created_at := 102 }] } := by decide
  rw [hrow] at hfst
  have hr : row = { game_id := "S1", user_id := 7, display_name := "Player",
                    message := "hi", room_type := "game", created_at := 102 } := by
    have h1 := congrArg Database.chat_messages (Option.some.inj hfst)
    simpa [emptyDatabase] using h1.symm
  rw [hr]
  rfl


/-! ## Presence list -/

theorem currentUsersLoop_spec :
    ∀ (cs : List LobbyClient) (seen : List Int) (users : List LobbyUser),
      (∀ id, id ∈ seen ↔ id ∈ userIds users) → (userIds users).Nodup →
      (userIds (currentUsersLoop cs seen users)).Nodup ∧
      ∀ id, id ∈ userIds (currentUsersLoop cs seen users) ↔
        (id ∈ userIds users ∨ ∃ c ∈ cs, hasIdentity c id)
  | [], seen, users, _, hnd => by
    simp [currentUsersLoop, hnd]
  | c :: rest, seen, users, hseen, hnd => by
    cases hu : c.user with
    | none =>
      obtain ⟨h1, h2⟩ := currentUsersLoop_spec rest seen users hseen hnd
      simp only [currentUsersLoop, hu]
      refine ⟨h1, fun id => ?_⟩
      rw [h2 id]
      simp [hasIdentity, hu]
    | some u =>
      by_cases hin : u.ID ∈ seen
      · obtain ⟨h1, h2⟩ := currentUsersLoop_spec rest seen users hseen hnd
        simp only [currentUsersLoop, hu, hin, if_true]
        refine ⟨h1, fun id => ?_⟩
        rw [h2 id]
        constructor
        · rintro (h | ⟨x, hx, hid⟩)
          · exact Or.inl h
          · exact Or.inr ⟨x, List.mem_cons_of_mem _ hx, hid⟩
        · rintro (h | ⟨x, hx, hid⟩)
          · exact Or.inl h
          · rcases List.mem_cons.mp hx with rfl | hx
            · obtain ⟨v, hv, hvid⟩ := hid
              rw [hu] at hv
              cases hv
              left
              rw [← hvid]
              exact (hseen _).mp hin
            · exact Or.inr ⟨x, hx, hid⟩
      · have hnew : ∀ (dn : String),
            userIds (users ++ [{ UserID := u.ID, DisplayName := dn }]) = userIds users ++ [u.ID] := by
          intro dn; simp [userIds]
        have hnotin : u.ID ∉ userIds users := fun h => hin ((hseen _).mpr h)
        obtain ⟨h1, h2⟩ := currentUsersLoop_spec rest (u.ID :: seen)
          (users ++ [{ UserID := u.ID,
                       DisplayName := if u.DisplayName = "" then u.Username else u.DisplayName }])
          (by
            intro id
            rw [hnew, List.mem_cons, List.mem_append, List.mem_singleton, hseen id]
            exact or_comm)
          (by
            rw [hnew, List.nodup_append]
            refine ⟨hnd, List.nodup_singleton _, ?_⟩
            intro a ha hb
            exact hnotin ((List.mem_singleton.mp hb) ▸ ha))
        simp only [currentUsersLoop, hu, hin, if_false]
        refine ⟨h1, fun id => ?_⟩
        rw [h2 id, hnew, List.mem_append, List.mem_singleton]
        constructor
        · rintro ((h | h) | ⟨x, hx, hid⟩)
          · exact Or.inl h
          · exact Or.inr ⟨c, List.mem_cons_self _ _, u, hu, h.symm⟩
          · exact Or.inr ⟨x, List.mem_cons_of_mem _ hx, hid⟩
        · rintro (h | ⟨x, hx, hid⟩)
          · exact Or.inl (Or.inl h)
          · rcases List.mem_cons.mp hx with rfl | hx
            · obtain ⟨v, hv, hvid⟩ := hid
              rw [hu] at hv
              cases hv
              exact Or.inl (Or.inr hvid.symm)
            · exact Or.inr ⟨x, hx, hid⟩

/-- C9. For every membership set of the lobby, the list returned by
`LobbyHub.currentUsers` holds no user id twice, and the ids it holds are exactly
the ids of the users of the attached handles (a handle without user gives none).
Hence, when two distinct attached handles have the same identity and one of them
is deleted from the set, the list computed from the remaining members holds that
identity exactly once. -/
theorem currentUsers_dedup (h : LobbyHub) :
    (userIds h.currentUsers).Nodup ∧
    (∀ id, id ∈ userIds h.currentUsers ↔ ∃ c ∈ h.clients, hasIdentity c id) ∧
    (∀ c1 c2 id, c1 ∈ h.clients → c2 ∈ h.clients → c1 ≠ c2 →
      hasIdentity c1 id → hasIdentity c2 id →
      (userIds (LobbyHub.currentUsers
        { clients := setDelete h.clients c1, chans := h.chans })).count id = 1) := by
  have key : ∀ cs : List LobbyClient,
      (userIds (currentUsersLoop cs [] [])).Nodup ∧
      ∀ id, id ∈ userIds (currentUsersLoop cs [] []) ↔ ∃ c ∈ cs, hasIdentity c id := by
    intro cs
    obtain ⟨h1, h2⟩ := currentUsersLoop_spec cs [] [] (by simp [userIds]) (by simp [userIds])
    refine ⟨h1, fun id => ?_⟩
    rw [h2 id]
    simp [userIds]
  refine ⟨(key _).1, (key _).2, ?_⟩
  intro c1 c2 id _ h2 hne _ hid2
  apply List.count_eq_one_of_mem (key _).1
  rw [(key _).2]
  exact ⟨c2, (mem_setDelete _ _ _).mpr ⟨h2, fun h => hne h.symm⟩, hid2⟩

theorem currentUsers_dedup_witness :
    userIds lobbyTwice.currentUsers = [1, 2] ∧
      (userIds (LobbyHub.currentUsers
        { clients := setDelete lobbyTwice.clients lobbyAnn, chans := lobbyTwice.chans })).count 1
        = 1 :=
  ⟨by decide,
   (currentUsers_dedup lobbyTwice).2.2 lobbyAnn lobbyAnn2 1 (by decide) (by decide) (by decide)
     ⟨_, rfl, rfl⟩ ⟨_, rfl, rfl⟩⟩


/-! ## Presence after a forced removal -/

/-- C10, the run that fails. `Ann` and `Bob` attach and 255 chat lines are
broadcast while nothing is taken from the queues. The queue of `Ann` holds 256
items when the last line comes, so `Ann` is removed and closed by the broadcast
arm of `LobbyHub.Run`, which sends no presence snapshot. `Bob` is then the only
member and the presence list of the membership is `[Bob]`, but the only presence
snapshot in the queue of `Bob` still lists `Ann` and `Bob`. -/
theorem lobby_forced_removal_stale_presence :
    lobbyObserve lobbyBob (LobbyHub.Run samplePresenceMarshal NewLobbyHub slowAnnOps)
        = some ([lobbyBob], [{ UserID := 2, DisplayName := "Bob" }],
                "presence,Ann,Bob" :: List.replicate 255 "hello", false) ∧
      lobbyObserve lobbyAnn (LobbyHub.Run samplePresenceMarshal NewLobbyHub slowAnnOps)
        = some ([lobbyBob], [{ UserID := 2, DisplayName := "Bob" }],
                "presence,Ann" :: "presence,Ann,Bob" :: List.replicate 254 "hello", true) ∧
      samplePresenceMarshal { Type_ := "presence", Users := [{ UserID := 2, DisplayName := "Bob" }] }
        = some "presence,Bob" := by
  decide


/-! ## Game rooms after a forced removal -/

/-- C11, the run that fails. Handle `client7` is the only member of room `S1` and
257 moves are broadcast while nothing is taken from its queue. After 256 of them
the queue is full, so the last broadcast deletes the handle from the room and
closes its queue; unlike the unregister arm, the broadcast arm of `GameHub.Run`
does not delete the room that became empty. The map `games` then holds room `S1`
with no member, and the unregister that the read loop of the handle sends later
finds no member and leaves the empty room in the map. -/
theorem gameHub_forced_removal_leaves_empty_room :
    gameObserve "S1" client7 (GameHub.Run sampleMarshal NewGameHub slowClientOps)
        = some (some [], List.replicate 256 "move:S1:a1:p1:", true) ∧
      gameObserve "S1" client7
          (GameHub.Run sampleMarshal NewGameHub (slowClientOps ++ [.unregister client7]))
        = some (some [], List.replicate 256 "move:S1:a1:p1:", true) ∧
      gameObserve "S1" client7
          (GameHub.Run sampleMarshal NewGameHub [.register client7, .unregister client7])
        = some (none, [], true) := by
  decide


/-! ## Lobby client: frames without effect -/

/-- C12, counterexample. A decoded lobby frame of the unknown type `ping` with the
text `hello`, read on the connection of `Ann`, is not dropped: the default arm of
the switch handles it as chat and sends a chat frame to the hub. -/
theorem lobby_unknown_type_is_broadcast :
    lobbyEffects (lobbyAnn.dispatch sampleCodec NewGameRegistry readPing inboundPing)
        = some [LobbyEffect.broadcast "chat:Ann:hello"] ∧
      inboundPing.Type_ ≠ "chat" ∧ inboundPing.Type_ ≠ "challenge" ∧
      inboundPing.Type_ ≠ "challengeAccept" := by
  decide

/-- C12, amended. A decoded lobby frame has no effect in `LobbyClient.readPump`
(nothing is sent to the hub, the registry is returned as it was, and the loop
goes on with the next read as if the frame had not come) in each of these cases:
its type is neither `challenge` nor `challengeAccept` and its text is blank once
trimmed; it is a `challenge` with target 0; it is a `challengeAccept` with
opponent 0. -/
theorem lobby_readPump_noop (codec : LobbyCodec) (c : LobbyClient) (reg : GameRegistry)
    (inp : LobbyPumpInput) (rest : List LobbyPumpInput) (payload : LobbyInbound)
    (hread : inp.read = .frame payload)
    (hcase : (payload.Type_ ≠ "challenge" ∧ payload.Type_ ≠ "challengeAccept" ∧
          TrimSpace payload.Text = "") ∨
        (payload.Type_ = "challenge" ∧ payload.TargetUserID = 0) ∨
        (payload.Type_ = "challengeAccept" ∧ payload.OpponentUserID = 0)) :
    c.dispatch codec reg inp payload = .ok (reg, []) ∧
      c.readPump codec reg (inp :: rest) = c.readPump codec reg rest := by
  have hd : c.dispatch codec reg inp payload = .ok (reg, []) := by
    rcases hcase with ⟨h1, h2, h3⟩ | ⟨h1, h2⟩ | ⟨h1, h2⟩
    · simp [LobbyClient.dispatch, h1, h2, h3]
    · simp [LobbyClient.dispatch, h1, h2]
    · simp [LobbyClient.dispatch, h1, h2]
  refine ⟨hd, ?_⟩
  simp only [LobbyClient.readPump, hread, hd]
  cases LobbyClient.readPump codec c reg rest with
  | error e => rfl
  | ok r => simp

theorem lobby_readPump_noop_witness :
    lobbyAnn.dispatch sampleCodec NewGameRegistry readBlankPing inboundBlankPing
        = .ok (NewGameRegistry, []) ∧
      lobbyAnn.readPump sampleCodec NewGameRegistry [readBlankPing, readPing]
        = lobbyAnn.readPump sampleCodec NewGameRegistry [readPing] :=
  lobby_readPump_noop sampleCodec lobbyAnn NewGameRegistry readBlankPing [readPing]
    inboundBlankPing rfl (Or.inl (by decide))

/-! ## Session registry and the start of a game -/

theorem playersLoop_pair (p1 p2 x : Int) :
    playersLoop [p1, p2] x = true ↔ (x = p1 ∨ x = p2) := by
  simp only [playersLoop]
  by_cases h1 : p1 = x
  · simp [h1]
  · by_cases h2 : p2 = x
    · simp [h1, h2]
    · have h1' : ¬ x = p1 := fun h => h1 h.symm
      have h2' : ¬ x = p2 := fun h => h2 h.symm
      simp [h1, h2, h1', h2']

theorem registerAll_games_other :
    ∀ (calls : List (String × Int × Int)) (gr : GameRegistry) (g : String),
      (∀ call ∈ calls, call.1 ≠ g) → (registerAll gr calls).games g = gr.games g
  | [], _, _, _ => rfl
  | (g', p1, p2) :: rest, gr, g, hne => by
    have hg : g ≠ g' := fun h => hne (g', p1, p2) (List.mem_cons_self _ _) h.symm
    rw [registerAll, registerAll_games_other rest _ g
      (fun call hc => hne call (List.mem_cons_of_mem _ hc))]
    simp [GameRegistry.Register, Function.update, hg]

/-- C13. For a decoded `challengeAccept` frame with opponent `o ≠ 0`, read on the
connection of a lobby member whose user is `u`, with `g` the value of
`uuid.NewString()` and a start notice that serializes to `out`, the read loop
first calls `Register(g, u.ID, o)` on the registry and then sends to the hub
exactly one frame, the serialized notice `{type startGame, gameId g, playerIds
[u.ID, o]}`, and goes on with the next read. In the registry after the call
`IsPlayerInGame(g, x)` holds exactly for `x = u.ID` and `x = o`, the answer for
every other session id is as before, and in a registry built from the empty one
by any calls of `Register` the answer is false for a session id that none of the
calls registered. -/
theorem challengeAccept_registers_and_starts (codec : LobbyCodec) (c : LobbyClient)
    (reg : GameRegistry) (inp : LobbyPumpInput) (rest : List LobbyPumpInput)
    (payload : LobbyInbound) (u : User) (o : Int) (out : Bytes)
    (hread : inp.read = .frame payload)
    (htype : payload.Type_ = "challengeAccept")
    (hopp : payload.OpponentUserID = o) (hne : o ≠ 0)
    (huser : c.user = some u)
    (hout : codec.marshalStart
      { Type_ := "startGame", GameID := inp.uuid, PlayerIDs := [u.ID, o] } = some out) :
    c.dispatch codec reg inp payload
        = .ok (reg.Register inp.uuid u.ID o,
            [LobbyEffect.register inp.uuid u.ID o, LobbyEffect.broadcast out]) ∧
      c.readPump codec reg (inp :: rest)
        = (match c.readPump codec (reg.Register inp.uuid u.ID o) rest with
           | .error e => .error e
           | .ok (reg', effects) =>
             .ok (reg', [LobbyEffect.register inp.uuid u.ID o, LobbyEffect.broadcast out]
                          ++ effects)) ∧
      (∀ x, (reg.Register inp.uuid u.ID o).IsPlayerInGame inp.uuid x = true ↔
        (x = u.ID ∨ x = o)) ∧
      (∀ g x, g ≠ inp.uuid →
        (reg.Register inp.uuid u.ID o).IsPlayerInGame g x = reg.IsPlayerInGame g x) ∧
      (∀ (calls : List (String × Int × Int)) (g : String) (x : Int),
        (∀ call ∈ calls, call.1 ≠ g) →
        (registerAll NewGameRegistry calls).IsPlayerInGame g x = false) := by
  have hd : c.dispatch codec reg inp payload
      = .ok (reg.Register inp.uuid u.ID o,
          [LobbyEffect.register inp.uuid u.ID o, LobbyEffect.broadcast out]) := by
    subst hopp
    simp [LobbyClient.dispatch, htype, hne, huser, hout]
  refine ⟨hd, ?_, ?_, ?_, ?_⟩
  · simp only [LobbyClient.readPump, hread, hd]
  · intro x
    simp only [GameRegistry.IsPlayerInGame, GameRegistry.Register, Function.update_same]
    exact playersLoop_pair _ _ _
  · intro g x hg
    simp [GameRegistry.IsPlayerInGame, GameRegistry.Register, Function.update, hg]
  · intro calls g x hcalls
    simp [GameRegistry.IsPlayerInGame, registerAll_games_other calls _ g hcalls,
      NewGameRegistry]

theorem challengeAccept_registers_and_starts_witness :
    lobbyEffects (lobbyAnn.dispatch sampleCodec NewGameRegistry readAccept inboundAccept)
        = some [LobbyEffect.register "g-1" 1 2, LobbyEffect.broadcast "start:g-1"] ∧
      (∀ x, (NewGameRegistry.Register "g-1" 1 2).IsPlayerInGame "g-1" x = true ↔
        (x = 1 ∨ x = 2)) := by
  have hw := challengeAccept_registers_and_starts sampleCodec lobbyAnn NewGameRegistry
    readAccept [] inboundAccept
    { ID := 1, Username := "ann", DisplayName := "Ann", CreatedAt := 0 } 2 "start:g-1"
    rfl rfl rfl (by decide) rfl rfl
  refine ⟨?_, hw.2.2.1⟩
  rw [hw.1]
  rfl

/-! ## Server start-up -/

/-- C14, the run that fails. A start-up whose database answers starts three
goroutines: `NewServer` starts `Run` of the game hub, then `main` starts `Run` of
the lobby hub and `Run` of the same game hub once more. The lobby hub has one
control loop, the game hub has two. -/
theorem startup_runs_gameHub_twice :
    main true true true = [Spawn.gameHubRun, Spawn.lobbyHubRun, Spawn.gameHubRun] ∧
      (main true true true).count Spawn.lobbyHubRun = 1 ∧
      (main true true true).count Spawn.gameHubRun = 2 ∧
      NewServer.count Spawn.gameHubRun = 1 := by
  decide


end DotsAndBoxes
